import Mathlib

/-!
Verification of the grounded retrieval and citation subsystem of the
google-keep-vibe-search repository.

Strings are modelled as `List Char` (Python `str` values over the code points
actually reachable in these code paths); floating point scores are modelled as
rationals, and the external embedding / clustering / LLM backends are taken as
parameters, exactly at the boundary where the source code calls them.

Each section embeds one Python module:
  * `Py`               : shared Python string primitives (`str.strip`,
                          `str.find`, `str.lower`, `str.split`, slices,
                          the stable `list.sort`).
  * `CitationService`  : `app/services/citation_service.py`.
  * `VibeSearch`       : `app/search.py` (hybrid search, embedding cache,
                          clustering).
  * `ChunkingService`  : `app/services/chunking_service.py`.
  * `DoclingChunking`  : `app/services/docling_chunking_service.py` together
                          with the offset bookkeeping of
                          `app/services/docling_adapter.py`.
  * `RouterAgent`      : `app/services/router_agent.py`.
-/

namespace Py

/-- ASCII fragment of Python whitespace (`str.strip`, regex class). The code
paths under study only ever strip spaces, tabs, newlines and carriage
returns. -/
def isSpace (c : Char) : Bool :=
  c = ' ' || c = '\t' || c = '\n' || c = '\r' || c = Char.ofNat 11 || c = Char.ofNat 12

/-- `str.lstrip()`. -/
def lstrip (s : List Char) : List Char := s.dropWhile isSpace

/-- `str.strip()`. -/
def strip (s : List Char) : List Char := ((lstrip s).reverse.dropWhile isSpace).reverse

/-- ASCII `str.lower()` on one character. -/
def lowerChar (c : Char) : Char :=
  if 'A' ≤ c ∧ c ≤ 'Z' then Char.ofNat (c.toNat + 32) else c

/-- ASCII `str.lower()`. -/
def lower (s : List Char) : List Char := s.map lowerChar

/-- `s[a:b]` for `0 ≤ a ≤ b` (Python clamps out-of-range bounds). -/
def slice (s : List Char) (a b : Nat) : List Char := (s.drop a).take (b - a)

/-- Tail-recursive list length. -/
def lenAux {α : Type} : List α → Nat → Nat
  | [], n => n
  | _ :: t, n => lenAux t (n + 1)

/-- Python's `len()` (O(1) in CPython; written tail-recursively here so that
concrete runs reduce in constant stack). Provably equal to `List.length`. -/
def pyLen {α : Type} (l : List α) : Nat := lenAux l 0

/-- `hay.find(needle)`: index of the first occurrence, `none` for `-1`. -/
def find : List Char → List Char → Option Nat
  | s, p =>
    if p.isPrefixOf s then some 0
    else
      match s with
      | [] => none
      | _ :: t => (find t p).map (· + 1)

/-- `needle in hay` (Python substring test). -/
def contains (hay needle : List Char) : Bool := (find hay needle).isSome

/-- Accumulator form of `str.split()` with no argument: words are the maximal
runs of non-whitespace characters. -/
def splitWsAux : List Char → List Char → List (List Char)
  | [], acc => if acc = [] then [] else [acc.reverse]
  | c :: t, acc =>
    if isSpace c then
      if acc = [] then splitWsAux t [] else acc.reverse :: splitWsAux t []
    else splitWsAux t (c :: acc)

/-- `str.split()` with no argument: split on whitespace runs, dropping empty
parts. -/
def splitWs (s : List Char) : List (List Char) := splitWsAux s []

/-- Digits of a decimal literal to a number (`int(...)` on a digit run). -/
def digitsToNat (ds : List Char) : Nat :=
  ds.foldl (fun acc c => acc * 10 + (c.toNat - '0'.toNat)) 0

/-- One step of the stable insertion used to model Python's stable
`list.sort(key=f)` (ascending): inserting into the already-sorted list of
the elements that followed it, an element passes over strictly smaller keys
only, so it lands before any equal-keyed later element (stability). -/
def stableInsert {α : Type} (f : α → ℚ) (x : α) : List α → List α
  | [] => [x]
  | y :: t => if f y < f x then y :: stableInsert f x t else x :: y :: t

/-- Python's stable `list.sort(key=f)` (ascending by `f`); `reverse=True`
sorts are obtained by negating the key, which preserves the original order of
equal-key elements exactly as CPython does. -/
def stableSort {α : Type} (f : α → ℚ) : List α → List α
  | [] => []
  | x :: t => stableInsert f x (stableSort f t)

end Py

namespace CitationService

open Py

/-- A context item handed to `extract_grounded_citations`: either a
`GroundedContext` object (has the `citation_id` attribute) or a plain dict
produced from one (always carrying the `citation_id`, `note_id`,
`note_title`, `start_char_idx`, `end_char_idx` and `text` keys). -/
inductive CtxItem : Type
  | obj (citation_id note_id note_title : List Char)
      (start_char_idx end_char_idx : Option Nat) (text : List Char)
  | dict (citation_id note_id note_title : List Char)
      (start_char_idx end_char_idx : Option Nat) (text : List Char)
deriving DecidableEq

namespace CtxItem

def citationId : CtxItem → List Char
  | obj cid _ _ _ _ _ => cid
  | dict cid _ _ _ _ _ => cid

def noteId : CtxItem → List Char
  | obj _ nid _ _ _ _ => nid
  | dict _ nid _ _ _ _ => nid

def noteTitle : CtxItem → List Char
  | obj _ _ t _ _ _ => t
  | dict _ _ t _ _ _ => t

/-- The key under which the item lands in `context_map`: objects are always
inserted; dicts only when their `citation_id` is truthy (non-empty). -/
def mapKey : CtxItem → Option (List Char)
  | obj cid _ _ _ _ _ => some cid
  | dict cid _ _ _ _ _ => if cid = [] then none else some cid

end CtxItem

/-- `context_map[cid]` after inserting every item in order: a later item with
the same id overwrites an earlier one, so lookup returns the last match. -/
def contextLookup (items : List CtxItem) (cid : List Char) : Option CtxItem :=
  (items.filter (fun it => it.mapKey = some cid)).getLast?

/-- An extracted citation dict (`citation_id`, `note_id`, `note_title`,
`start_char_idx`, `end_char_idx`, `text_snippet`). -/
structure Citation where
  citation_id : List Char
  note_id : List Char
  note_title : List Char
  start_char_idx : Option Nat
  end_char_idx : Option Nat
  text_snippet : List Char
deriving DecidableEq

instance : Inhabited Citation := ⟨⟨[], [], [], none, none, []⟩⟩

/-- The literal `[citation:` that opens a structured marker. -/
def citOpen : List Char := "[citation:".data

/-- All ids captured by scanning the response text for the pattern
`\[citation:([^\]]+)\]`, left to right: at each position the pattern matches
iff the literal `[citation:` is followed by a non-empty run of non-`]`
characters and then `]`; scanning resumes after the match, otherwise at the
next character. -/
def scanMarkersF : Nat → List Char → List (List Char)
  | 0, _ => []
  | fuel + 1, s =>
    match s with
    | [] => []
    | _ :: t =>
      if citOpen.isPrefixOf s then
        let rest := s.drop citOpen.length
        let run := rest.takeWhile (fun d => d ≠ ']')
        if run ≠ [] ∧ rest.drop run.length ≠ [] then
          run :: scanMarkersF fuel (rest.drop (run.length + 1))
        else
          scanMarkersF fuel t
      else
        scanMarkersF fuel t

/-- The scan itself; every step consumes at least one character, so the
text length bounds the recursion. -/
def scanMarkers (s : List Char) : List (List Char) :=
  scanMarkersF (pyLen s + 1) s

/-- First-seen deduplication: the `seen` set of the Python loop, as an
accumulator. -/
def firstSeenAux : List (List Char) → List (List Char) → List (List Char)
  | [], _ => []
  | x :: t, seen =>
    if x ∈ seen then firstSeenAux t seen
    else x :: firstSeenAux t (x :: seen)

/-- The ids in first-seen order with duplicates dropped. -/
def firstSeen (l : List (List Char)) : List (List Char) :=
  firstSeenAux l []

/-- Resolve one stripped marker id against the context map. -/
def resolveCitation (items : List CtxItem) (cid : List Char) : Citation :=
  match contextLookup items cid with
  | some (.obj _ nid title s e text) =>
      { citation_id := cid, note_id := nid, note_title := title,
        start_char_idx := s, end_char_idx := e,
        text_snippet :=
          if 200 < text.length then text.take 200 ++ "...".data else text }
  | some (.dict _ nid title s e text) =>
      { citation_id := cid, note_id := nid, note_title := title,
        start_char_idx := s, end_char_idx := e, text_snippet := text.take 200 }
  | none =>
      { citation_id := cid, note_id := [], note_title := [],
        start_char_idx := none, end_char_idx := none, text_snippet := [] }

/-- The structured part of the extraction: scan, strip, dedup, resolve. -/
def structuredCitations (txt : List Char) (items : List CtxItem) : List Citation :=
  (firstSeen ((scanMarkers txt).map strip)).map (resolveCitation items)

/-- The literal `[Note #` that opens a legacy marker. -/
def legacyOpen : List Char := "[Note #".data

/-- Continuation of a legacy match after the first number: iterations of
`,\s*#\d+`, then the closing `]`. Returns the parsed numbers (reversed into
`acc`) and the rest of the text. Fuel bounds the recursion; the caller hands
in the text length, which every iteration strictly decreases. -/
def legacyMore : Nat → List Char → List Nat → Option (List Nat × List Char)
  | 0, _, _ => none
  | _ + 1, ']' :: t, acc => some (acc.reverse, t)
  | fuel + 1, ',' :: t, acc =>
      let t2 := t.dropWhile isSpace
      match t2 with
      | '#' :: t3 =>
          let ds := t3.takeWhile Char.isDigit
          if ds = [] then none
          else legacyMore fuel (t3.drop ds.length) (digitsToNat ds :: acc)
      | _ => none
  | _ + 1, _, _ => none

/-- Parse the tail of a legacy marker, positioned right after `[Note #`:
a digit run, then `legacyMore`. -/
def legacyAfter (s : List Char) : Option (List Nat × List Char) :=
  let ds := s.takeWhile Char.isDigit
  if ds = [] then none
  else legacyMore (s.length + 1) (s.drop ds.length) [digitsToNat ds]

/-- All matches of the legacy pattern `\[Note #(\d+)(?:,\s*#(\d+))*\]`, each
reported as its list of numbers (the `re.findall(r"#(\d+)", ...)` step).
Fuel bounds the scan; the caller passes the text length plus one. -/
def scanLegacy : Nat → List Char → List (List Nat)
  | 0, _ => []
  | _ + 1, [] => []
  | fuel + 1, c :: t =>
    if legacyOpen.isPrefixOf (c :: t) then
      match legacyAfter ((c :: t).drop legacyOpen.length) with
      | some (nums, rest) => nums :: scanLegacy fuel rest
      | none => scanLegacy fuel t
    else
      scanLegacy fuel t

/-- A legacy citation dict (`note_number`, `note_id`, `note_title`). -/
structure LegacyCitation where
  note_number : Nat
  note_id : List Char
  note_title : List Char
deriving DecidableEq

/-- The in-range, first-seen filtering loop of `extract_citations`. -/
def legacyCollect (notes : List (List Char × List Char)) :
    List Nat → List Nat → List LegacyCitation
  | [], _ => []
  | n :: rest, seen =>
    if 1 ≤ n ∧ n ≤ notes.length ∧ n ∉ seen then
      { note_number := n,
        note_id := (notes.getD (n - 1) ([], [])).1,
        note_title := (notes.getD (n - 1) ([], [])).2 } ::
        legacyCollect notes rest (n :: seen)
    else
      legacyCollect notes rest seen

/-- `extract_citations`: legacy `[Note #N]` extraction against the ordered
`context_notes` list (each note as an `(id, title)` pair). -/
def extract_citations (txt : List Char) (notes : List (List Char × List Char)) :
    List LegacyCitation :=
  legacyCollect notes (scanLegacy (txt.length + 1) txt).flatten []

/-- The `legacy_notes` list built before the legacy fallback: `(id, title)`
from every context item. -/
def legacyNotes (items : List CtxItem) : List (List Char × List Char) :=
  items.map (fun it => (it.noteId, it.noteTitle))

/-- `extract_grounded_citations`: structured `[citation:ID]` extraction with
the legacy fallback used only when no structured marker was found and the
context is non-empty. -/
def extract_grounded_citations (txt : List Char) (items : List CtxItem) :
    List Citation :=
  let cits := structuredCitations txt items
  if cits = [] ∧ items ≠ [] then
    (extract_citations txt (legacyNotes items)).map (fun lc =>
      { citation_id := lc.note_id, note_id := lc.note_id,
        note_title := lc.note_title, start_char_idx := none,
        end_char_idx := none, text_snippet := [] })
  else
    cits

end CitationService

namespace VibeSearch

open Py

/-- A note as far as `app/search.py` reads it: `title` and `content`
(attachments and timestamps play no role in the embedded paths). -/
structure SNote where
  title : List Char
  content : List Char
deriving DecidableEq

instance : Inhabited SNote := ⟨⟨[], []⟩⟩

/-- `f"{note['title']} {note['content']}"`. -/
def noteText (n : SNote) : List Char := n.title ++ ' ' :: n.content

/-- `self.note_indices` as built in `__init__`: the indices of notes whose
combined text is non-empty after stripping. -/
def note_indices (notes : List SNote) : List Nat :=
  (List.range notes.length).filter
    (fun i => strip (noteText (notes.getD i default)) ≠ [])

/-- `self.texts`, aligned with `note_indices`. -/
def texts (notes : List SNote) : List (List Char) :=
  (note_indices notes).map (fun i => noteText (notes.getD i default))

/-- `_keyword_search`: per note, the fraction of query tokens (of length at
least 3) that occur as substrings of the lowercased `"{title} {content}"`;
only notes with at least one match are listed. -/
def keyword_search (notes : List SNote) (query : List Char) : List (Nat × ℚ) :=
  let keywords := splitWs (lower query)
  (note_indices notes).filterMap (fun note_idx =>
    let text := lower (noteText (notes.getD note_idx default))
    let match_count :=
      (keywords.filter (fun kw => 3 ≤ kw.length ∧ contains text kw)).length
    if 0 < match_count then
      some (note_idx, (match_count : ℚ) / (keywords.length : ℚ))
    else none)

/-- `keyword_score_map.get(note_idx, d)`; the keys produced by
`keyword_search` are distinct, so first-match lookup is dict lookup. -/
def lookupD (m : List (Nat × ℚ)) (k : Nat) (d : ℚ) : ℚ :=
  match m.find? (fun p => p.1 == k) with
  | some p => p.2
  | none => d

/-- The scores list built by `search` before sorting: one
`(note_idx, combined_score, should_include)` triple per indexed note. The
semantic scores (cosine similarities from the sentence-transformer) and the
image score map (CLIP matches, `image_score_map.get(note_idx, 0)`) are
parameters, exactly the values the code obtains from the external models;
the float weights 0.7 / 0.3 appear as the rationals 7/10 and 3/10. -/
def candidateScores (notes : List SNote) (semantic : List ℚ) (imageScore : Nat → ℚ)
    (sThr imgThr imgW : ℚ) (query : List Char) : List (Nat × ℚ × Bool) :=
  let kwMap := keyword_search notes query
  (List.range (note_indices notes).length).map (fun i =>
    let note_idx := (note_indices notes).getD i 0
    let semantic_score := semantic.getD i 0
    let keyword_score := lookupD kwMap note_idx 0
    let image_score := imageScore note_idx
    let text_score := semantic_score * (7/10) + keyword_score * (3/10)
    let combined_score :=
      if 0 < image_score then text_score * (1 - imgW) + image_score * imgW
      else text_score
    let should_include :=
      decide (sThr < semantic_score) || decide (0 < keyword_score) ||
        decide (imgThr < image_score)
    (note_idx, combined_score, should_include))

/-- `VibeSearch.search`: empty-query guard, combined scoring, stable sort by
combined score descending, truncation to `max_results`, then the inclusion
filter. Results are `(note_idx, combined_score)` pairs standing for the
returned note dicts (the code copies the note and attaches the score). -/
def search (notes : List SNote) (semantic : List ℚ) (imageScore : Nat → ℚ)
    (sThr imgThr imgW : ℚ) (query : List Char) (max_results : Nat) :
    List (Nat × ℚ) :=
  if strip query = [] then []
  else
    let scores := candidateScores notes semantic imageScore sThr imgThr imgW query
    let sorted := stableSort (fun x => -x.2.1) scores
    (sorted.take max_results).filterMap
      (fun x => if x.2.2 then some (x.1, x.2.1) else none)

/-- The embedding model boundary: `model.encode` and
`model.get_sentence_embedding_dimension()`. `encode` is deterministic for a
fixed loaded model. -/
structure Model where
  encode : List (List Char) → List (List ℚ)
  dim : Nat

/-- The persisted `notes_hash.json` payload written by
`_save_embeddings_to_cache`: the notes hash, the note count, and (under the
key `model_name`) the embedding dimensionality. -/
structure CacheInfo where
  hash : List Char
  note_count : Nat
  model_name : Nat
deriving DecidableEq

/-- Contents of `notes_hash.json` on disk: a well-formed payload, or bytes
that make `json.load` raise. -/
inductive HashFile : Type
  | corrupt
  | info (ci : CacheInfo)
deriving DecidableEq

/-- Contents of `embeddings.npz` on disk: a well-formed payload (embeddings
plus the note indices they were computed for), or bytes that make `np.load`
raise. -/
inductive EmbFile : Type
  | corrupt
  | data (embeddings : List (List ℚ)) (cached_indices : List Nat)
deriving DecidableEq

/-- The two cache files; `none` models a missing file. -/
structure CacheFS where
  emb_file : Option EmbFile
  hash_file : Option HashFile
deriving DecidableEq

/-- `_compute_notes_hash`: md5 updated with each text in order, i.e. the
digest of the concatenation of all texts. The digest function itself is a
parameter. -/
def compute_notes_hash (md5 : List Char → List Char) (notes : List SNote) :
    List Char :=
  md5 (texts notes).flatten

/-- `_is_cache_valid`: both files must exist; a `json.load` failure is caught
and reported as invalid; otherwise the stored hash and note count must match.
The stored `model_name` (dimensionality) field is not consulted. -/
def is_cache_valid (fs : CacheFS) (notes : List SNote) (current : List Char) :
    Bool :=
  match fs.emb_file, fs.hash_file with
  | none, _ => false
  | some _, none => false
  | some _, some .corrupt => false
  | some _, some (.info ci) =>
      decide (ci.hash = current) &&
        decide (ci.note_count = (note_indices notes).length)

/-- `_load_embeddings_from_cache`: a read/parse failure or a note-index
mismatch falls back to recomputing silently. -/
def load_embeddings_from_cache (M : Model) (notes : List SNote) (fs : CacheFS) :
    List (List ℚ) :=
  match fs.emb_file with
  | some (.data embs cached) =>
      if cached = note_indices notes then embs else M.encode (texts notes)
  | _ => M.encode (texts notes)

/-- `_save_embeddings_to_cache`: write both files whole. -/
def save_embeddings_to_cache (M : Model) (notes : List SNote)
    (embs : List (List ℚ)) (h : List Char) : CacheFS :=
  { emb_file := some (.data embs (note_indices notes)),
    hash_file :=
      some (.info { hash := h, note_count := (note_indices notes).length,
                    model_name := M.dim }) }

/-- `load_or_compute_embeddings`: returns the in-memory embeddings, the cache
state afterwards, and whether the `"Loaded embeddings from cache"` branch was
taken. -/
def load_or_compute_embeddings (M : Model) (md5 : List Char → List Char)
    (notes : List SNote) (fs : CacheFS) : List (List ℚ) × CacheFS × Bool :=
  let current := compute_notes_hash md5 notes
  if is_cache_valid fs notes current then
    (load_embeddings_from_cache M notes fs, fs, true)
  else
    let embs := M.encode (texts notes)
    (embs, save_embeddings_to_cache M notes embs current, false)

/-- One cluster as assembled by `get_clusters` (keyword labelling is not
modelled: it feeds on the external nltk stopword corpus and does not affect
cluster count, order or membership). `notes` holds embedding-row indices
`i`, standing for the note dicts `self.notes[self.note_indices[i]]`. -/
structure Cluster where
  id : Nat
  notes : List Nat
  size : Nat
deriving DecidableEq

/-- The rows assigned to cluster `c` by `fit_predict`, in corpus order. -/
def cluster_rows (labels : List Nat) (c : Nat) : List Nat :=
  (List.range labels.length).filter (fun i => labels.getD i 0 == c)

/-- `get_clusters`: the requested cluster count is capped at
`max(2, int(n * 0.75))` where `n` is the number of indexed notes
(`int(n * 0.75) = n * 3 / 4` exactly: 0.75 is a dyadic float and `3 * n`
is far below 2^53). K-means itself is external: its per-row labels and the
per-row distance to the assigned centroid are parameters. Rows inside a
cluster are stably sorted by ascending distance, empty clusters are skipped,
and the clusters are stably sorted by size descending. -/
def get_clusters (num_clusters : Nat) (labels : List Nat) (dist : Nat → ℚ) :
    List Cluster :=
  let n := labels.length
  let k := min num_clusters (max 2 (n * 3 / 4))
  let raw := (List.range k).filterMap (fun c =>
    let rows := stableSort dist (cluster_rows labels c)
    if rows = [] then none
    else some { id := c, notes := rows, size := rows.length })
  stableSort (fun cl => -(cl.size : ℚ)) raw

end VibeSearch

namespace Py

/-- Length of the match of `\n\s*\n` anchored at the head of `s` (0 when the
alternative does not match here). The greedy `\s*` backtracks until the final
`\n`, so the match runs from the leading newline through the last newline of
the maximal whitespace run that follows it. -/
def nlWsNl (s : List Char) : Nat :=
  match s with
  | '\n' :: rest =>
      let run := rest.takeWhile isSpace
      match (List.range run.length).filter (fun j => run.getD j ' ' == '\n') with
      | [] => 0
      | js => 1 + (js.getLastD 0) + 1
  | _ => 0

/-- `re.split`-style splitter for a pattern given by its anchored match
length `ml` (`ml s = 0` means no match at this position): parts between
successive leftmost matches. -/
def reSplitAux (ml : List Char → Nat) : Nat → List Char → List Char →
    List (List Char)
  | 0, _, acc => [acc.reverse]
  | fuel + 1, s, acc =>
    match s with
    | [] => [acc.reverse]
    | c :: t =>
      if ml s = 0 then reSplitAux ml fuel t (c :: acc)
      else acc.reverse :: reSplitAux ml fuel (s.drop (ml s)) []

/-- `re.split(pattern, s)` for an anchored match-length function; every step
consumes at least one character (the match-length functions used here never
return a positive value shorter than one character), so the input length
bounds the recursion. -/
def reSplit (ml : List Char → Nat) (s : List Char) : List (List Char) :=
  reSplitAux ml (pyLen s + 1) s []

/-- `s.split("\n")`. -/
def splitNl (s : List Char) : List (List Char) :=
  reSplit (fun l => match l with | '\n' :: _ => 1 | _ => 0) s

/-- `hay.find(p, pos)`: first occurrence at an index `≥ pos`. -/
def findFrom (hay p : List Char) (pos : Nat) : Option Nat :=
  (find (hay.drop pos) p).map (· + pos)

end Py

namespace ChunkingService

open Py

def MIN_CHUNK_LENGTH : Nat := 100
def MAX_CHUNK_LENGTH : Nat := 1500
def SHORT_NOTE_THRESHOLD : Nat := 500

/-- Lookahead `(?=#{1,3}\s)`: one to three `#` followed by whitespace. -/
def hashLookahead (rest : List Char) : Bool :=
  let m := (rest.takeWhile (fun c => c == '#')).length
  decide (1 ≤ m) && decide (m ≤ 3) &&
    (match rest.drop m with
     | c :: _ => isSpace c
     | [] => false)

/-- Lookahead `(?=[-*]\s)`: a dash or star followed by whitespace. -/
def listLookahead (rest : List Char) : Bool :=
  match rest with
  | c :: d :: _ => (c == '-' || c == '*') && isSpace d
  | _ => false

/-- Anchored match length of `\n\s*\n|\n(?=#{1,3}\s)|\n(?=[-*]\s)`
(`_split_into_paragraphs`); the lookahead alternatives consume only the
newline. -/
def sepMatch (s : List Char) : Nat :=
  let n := nlWsNl s
  if n ≠ 0 then n
  else
    match s with
    | '\n' :: rest => if hashLookahead rest || listLookahead rest then 1 else 0
    | _ => 0

/-- `_split_into_paragraphs`: split on the separator regex, strip every
block, drop empty ones. -/
def split_into_paragraphs (text : List Char) : List (List Char) :=
  ((reSplit sepMatch text).map strip).filter (fun b => b ≠ [])

/-- One step of the `_merge_paragraphs` loop over `(chunks, current)`. -/
def mergeStep (acc : List (List Char) × List Char) (para : List Char) :
    List (List Char) × List Char :=
  let combined := acc.2 ++ '\n' :: '\n' :: para
  if pyLen combined ≤ MAX_CHUNK_LENGTH then (acc.1, combined)
  else if MIN_CHUNK_LENGTH ≤ pyLen acc.2 then (acc.1 ++ [acc.2], para)
  else (acc.1, combined)

/-- `_merge_paragraphs`: greedy merging with the undersized-remainder rules. -/
def merge_paragraphs (paragraphs : List (List Char)) : List (List Char) :=
  match paragraphs with
  | [] => []
  | p0 :: rest =>
    let st := rest.foldl mergeStep ([], p0)
    let chunks := st.1
    let current := st.2
    if strip current ≠ [] then
      if chunks ≠ [] ∧ pyLen current < MIN_CHUNK_LENGTH then
        chunks.dropLast ++ [chunks.getLastD [] ++ '\n' :: '\n' :: current]
      else chunks ++ [current]
    else chunks

/-- A note dict as the chunking services read it. -/
structure KNote where
  id : List Char
  title : List Char
  content : List Char
deriving DecidableEq

instance : Inhabited KNote := ⟨⟨[], [], []⟩⟩

/-- `f"{title} {content}".strip()`. -/
def full_text (note : KNote) : List Char := strip (note.title ++ ' ' :: note.content)

/-- One produced chunk (`NoteChunk`; timestamps and tag are copied metadata
with no effect on the embedded properties). -/
structure NoteChunk where
  note_id : List Char
  chunk_index : Nat
  text : List Char
  title : List Char
deriving DecidableEq

instance : Inhabited NoteChunk := ⟨⟨[], 0, [], []⟩⟩

/-- The per-note body of `build_chunks`: skip id-less and empty notes, emit a
single whole-text chunk for short notes, otherwise split, merge and prepend
the title to chunk 0. -/
def build_chunks_note (note : KNote) : List NoteChunk :=
  if note.id = [] then []
  else
    let ft := full_text note
    if ft = [] then []
    else if pyLen ft ≤ SHORT_NOTE_THRESHOLD then
      [{ note_id := note.id, chunk_index := 0, text := ft, title := note.title }]
    else
      (merge_paragraphs (split_into_paragraphs note.content)).enum.map
        (fun p =>
          { note_id := note.id, chunk_index := p.1,
            text := if p.1 = 0 then note.title ++ ' ' :: p.2 else p.2,
            title := note.title })

/-- `build_chunks` over the whole corpus. -/
def build_chunks (notes : List KNote) : List NoteChunk :=
  (notes.map build_chunks_note).flatten

/-- A long two-paragraph note whose second paragraph alone exceeds
`MAX_CHUNK_LENGTH`. -/
def c6noteBig : KNote :=
  ⟨['n'], ['T'], List.replicate 200 'a' ++ '\n' :: '\n' :: List.replicate 1600 'b'⟩

/-- A long two-paragraph note with moderately sized paragraphs. -/
def c6noteOk : KNote :=
  ⟨['n'], ['T'], List.replicate 300 'a' ++ '\n' :: '\n' :: List.replicate 300 'b'⟩

end ChunkingService

namespace DoclingChunking

open Py ChunkingService

def MIN_LEN : Nat := 100
def MAX_LEN : Nat := 1500

/-- `ParagraphOffset` from the adapter (`stop` stands for the Python field
`end`, a reserved word here); `-1` marks the title entry. -/
structure ParagraphOffset where
  text : List Char
  start : Int
  stop : Int
deriving DecidableEq

/-- The `_split_content` position-tracking loop: find each part from the
current position (falling back to the position itself when `find` fails),
and record `(stripped, start, start + len(stripped))` for blocks that are
non-empty after stripping. -/
def split_content_loop (content : List Char) :
    List (List Char) → Nat → List (List Char × Nat × Nat)
  | [], _ => []
  | part :: parts, pos =>
    let idx := (findFrom content part pos).getD pos
    let stripped := strip part
    let tail := split_content_loop content parts (idx + part.length)
    if stripped = [] then tail
    else
      let strip_offset := (find part [stripped.headD ' ']).getD 0
      let start := idx + strip_offset
      (stripped, start, start + stripped.length) :: tail

/-- `GoogleKeepDoclingAdapter._split_content`: split on `\n\s*\n` and track
character offsets. -/
def split_content (content : List Char) : List (List Char × Nat × Nat) :=
  split_content_loop content (reSplit nlWsNl content) 0

/-- `HEADING_RE = ^(#{1,3})\s+(.+)$` matched against a stripped block:
returns `group(2).strip()` when the block is a heading. `(.+)` cannot cross
a newline and the block has no trailing newline, so the tail after the
greedy whitespace run must be newline-free. -/
def headingText (block : List Char) : Option (List Char) :=
  let m := (block.takeWhile (fun c => c == '#')).length
  if 1 ≤ m ∧ m ≤ 3 then
    let afterHash := block.drop m
    let run := afterHash.takeWhile isSpace
    if run ≠ [] then
      let tl := afterHash.drop run.length
      if tl ≠ [] ∧ '\n' ∉ tl then some (strip tl) else none
    else none
  else none

/-- `LIST_ITEM_RE = ^[-*]\s+(.+)$` on a stripped line. -/
def isListItemLine (line : List Char) : Bool :=
  match line with
  | c :: rest =>
      (c == '-' || c == '*') &&
        (let run := rest.takeWhile isSpace
         decide (run ≠ []) && decide (rest.drop run.length ≠ []))
  | [] => false

/-- The all-lines-are-list-items test of `note_to_document` (blank lines are
skipped). -/
def isListBlock (block : List Char) : Bool :=
  (splitNl block).all (fun line => decide (strip line = []) || isListItemLine (strip line))

/-- The `ParagraphOffset` list produced by `note_to_document`: a `(-1, -1)`
title entry when the note has a title, then one entry per block — heading
blocks contribute their heading text, list and plain blocks their stripped
block text, each with the block's offsets. The `DoclingDocument` itself is
consumed only by the external chunker and is not modelled. -/
def note_offsets (note : KNote) : List ParagraphOffset :=
  (if note.title ≠ [] then [⟨note.title, -1, -1⟩] else []) ++
    (if note.content = [] then []
     else
       (split_content note.content).map (fun b =>
         match headingText b.1 with
         | some ht => ⟨ht, (b.2.1 : Int), (b.2.2 : Int)⟩
         | none =>
             if isListBlock b.1 then ⟨b.1, (b.2.1 : Int), (b.2.2 : Int)⟩
             else ⟨b.1, (b.2.1 : Int), (b.2.2 : Int)⟩))

/-- In-place dict update used by `_build_offset_map` (Python dicts keep the
first-insertion position and overwrite the value). -/
def dictUpsert (m : List (List Char × Nat × Nat)) (k : List Char) (v : Nat × Nat) :
    List (List Char × Nat × Nat) :=
  if m.any (fun p => p.1 == k) then
    m.map (fun p => if p.1 == k then (k, v) else p)
  else m ++ [(k, v)]

/-- `_build_offset_map`: paragraph text to offsets, skipping the `-1`
(title) entries. -/
def build_offset_map (offs : List ParagraphOffset) :
    List (List Char × Nat × Nat) :=
  offs.foldl (fun m o =>
    if 0 ≤ o.start ∧ 0 ≤ o.stop then dictUpsert m o.text (o.start.toNat, o.stop.toNat)
    else m) []

/-- `_resolve_chunk_offsets`: exact substring match, then doc-item offsets,
then fuzzy containment, then a 50-character prefix search, else the whole
note. -/
def resolve_chunk_offsets (chunkTextRaw : List Char) (docItems : List (List Char))
    (content : List Char) (omap : List (List Char × Nat × Nat)) : Nat × Nat :=
  let chunk_text := strip chunkTextRaw
  match find content chunk_text with
  | some i => (i, i + chunk_text.length)
  | none =>
    let hits := docItems.filterMap (fun it =>
      (omap.find? (fun p => p.1 == it)).map (fun p => p.2))
    if docItems ≠ [] ∧ hits ≠ [] then
      (hits.foldl (fun a p => min a p.1) content.length,
       hits.foldl (fun a p => max a p.2) 0)
    else
      match omap.find? (fun p => contains chunk_text p.1 || contains p.1 chunk_text) with
      | some p => p.2
      | none =>
        if 50 ≤ chunk_text.length then
          match find content (chunk_text.take 50) with
          | some i => (i, i + chunk_text.length)
          | none => (0, content.length)
        else (0, content.length)

/-- One produced chunk (`DoclingNoteChunk`). -/
structure DChunk where
  note_id : List Char
  chunk_index : Nat
  text : List Char
  title : List Char
  start_char_idx : Nat
  end_char_idx : Nat
  heading_trail : List (List Char)
deriving DecidableEq

instance : Inhabited DChunk := ⟨⟨[], 0, [], [], 0, 0, []⟩⟩

/-- A chunk as returned by the external `HierarchicalChunker`: its text, its
`meta.doc_items` texts and its `meta.headings`. -/
structure RawDocChunk where
  text : List Char
  doc_items : List (List Char)
  headings : List (List Char)
deriving DecidableEq

/-- `_fallback_chunk` (also the shape of the short-note / no-chunker branch
of `_chunk_note`): one chunk spanning `0 .. len(content)`. -/
def fallback_chunk (note : KNote) : DChunk :=
  { note_id := note.id, chunk_index := 0, text := full_text note,
    title := note.title, start_char_idx := 0,
    end_char_idx := note.content.length,
    heading_trail := if note.title ≠ [] then [note.title] else [] }

/-- `_merge_small_chunks`: merge a run starting at an undersized chunk into
its successor while the combination stays within the maximum, then
re-index. -/
def merge_small_chunks (chunks : List DChunk) : List DChunk :=
  if chunks.length ≤ 1 then chunks
  else
    match chunks with
    | [] => chunks
    | c0 :: rest =>
      let st := rest.foldl (fun (acc : List DChunk × DChunk) nxt =>
        let current := acc.2
        let combined := current.text ++ '\n' :: '\n' :: nxt.text
        if current.text.length < MIN_LEN ∧ combined.length ≤ MAX_LEN then
          (acc.1, { current with text := combined, end_char_idx := nxt.end_char_idx })
        else (acc.1 ++ [current], nxt)) ([], c0)
      (st.1 ++ [st.2]).enum.map (fun p => { p.2 with chunk_index := p.1 })

/-- `_chunk_note`: the external `HierarchicalChunker` output is a parameter —
`none` stands for a missing library, a raised exception or an empty chunk
list (all of which take the fallback path). -/
def chunk_note (hier : Option (List RawDocChunk)) (note : KNote) : List DChunk :=
  let ft := full_text note
  if ft = [] then []
  else if ft.length ≤ MIN_LEN then [fallback_chunk note]
  else
    match hier with
    | none => [fallback_chunk note]
    | some [] => [fallback_chunk note]
    | some raw =>
      let omap := build_offset_map (note_offsets note)
      let base := raw.enum.map (fun p =>
        let se := resolve_chunk_offsets p.2.text p.2.doc_items note.content omap
        let ctext :=
          if p.1 = 0 ∧ note.title ≠ [] ∧ ¬ note.title.isPrefixOf p.2.text then
            note.title ++ ' ' :: p.2.text
          else p.2.text
        { note_id := note.id, chunk_index := p.1, text := ctext,
          title := note.title, start_char_idx := se.1, end_char_idx := se.2,
          heading_trail := p.2.headings })
      merge_small_chunks base

end DoclingChunking

namespace RouterAgent

open Py

/-- Query intents. -/
inductive QueryIntent : Type
  | factual
  | relational
  | summary
  | mixed
deriving DecidableEq

/-- `_SUMMARY_KEYWORDS`. -/
def SUMMARY_KEYWORDS : List (List Char) :=
  ["summarize".data, "summary".data, "overview".data, "recap".data,
   "outline".data, "highlights".data, "main points".data,
   "key takeaways".data, "tldr".data, "gist".data,
   "what are the main".data, "give me an overview".data, "big picture".data]

/-- `_RELATIONAL_KEYWORDS`. -/
def RELATIONAL_KEYWORDS : List (List Char) :=
  ["relationship".data, "connection".data, "related".data, "linked".data,
   "between".data, "how does".data, "compare".data, "contrast".data,
   "interact".data, "depend".data, "who is".data, "who was".data,
   "what connects".data]

/-- `_classify_rule_based`: count keyword hits in the lowercased query and
pick the strictly larger non-zero side, defaulting to FACTUAL. -/
def classify_rule_based (query : List Char) : QueryIntent :=
  let l := lower query
  let summary_score := (SUMMARY_KEYWORDS.filter (fun kw => contains l kw)).length
  let relational_score := (RELATIONAL_KEYWORDS.filter (fun kw => contains l kw)).length
  if relational_score < summary_score ∧ 0 < summary_score then .summary
  else if summary_score < relational_score ∧ 0 < relational_score then .relational
  else .factual

/-- A raw backend result row (a Python dict; `none` marks an absent key).
`score` rows arrive as floats from the backends and are modelled as
rationals. -/
structure RawResult where
  id : Option (List Char)
  note_id : Option (List Char)
  chunk_index : Option Nat
  title : Option (List Char)
  note_title : Option (List Char)
  matched_chunk : Option (List Char)
  text : Option (List Char)
  content : Option (List Char)
  score : Option ℚ
  start_char_idx : Option Nat
  end_char_idx : Option Nat
  heading_trail : Option (List (List Char))
deriving DecidableEq

instance : Inhabited RawResult :=
  ⟨⟨none, none, none, none, none, none, none, none, none, none, none, none⟩⟩

/-- `GroundedContext` (`app/models/retrieval.py`). -/
structure GroundedContext where
  citation_id : List Char
  note_id : List Char
  note_title : List Char
  text : List Char
  start_char_idx : Option Nat
  end_char_idx : Option Nat
  relevance_score : ℚ
  source_type : List Char
  heading_trail : List (List Char)
deriving DecidableEq

/-- `_results_to_grounded`: normalize duck-typed rows, defaulting missing
fields, and build the citation id as `note_id + "_c" + chunk_index` when a
chunk index is present. -/
def results_to_grounded (results : List RawResult) (source_type : List Char) :
    List GroundedContext :=
  results.map (fun r =>
    let note_id := r.id.getD (r.note_id.getD [])
    let title := r.title.getD (r.note_title.getD [])
    let text := r.matched_chunk.getD (r.text.getD (r.content.getD []))
    let score := r.score.getD 0
    let citation_id :=
      match r.chunk_index with
      | some ci => note_id ++ '_' :: 'c' :: (Nat.repr ci).data
      | none => note_id
    { citation_id := citation_id, note_id := note_id, note_title := title,
      text := text, start_char_idx := r.start_char_idx,
      end_char_idx := r.end_char_idx, relevance_score := score,
      source_type := source_type, heading_trail := r.heading_trail.getD [] })

/-- The GraphRAG backend boundary. -/
structure GraphService where
  is_ready : Bool
  query_relations : List Char → Nat → List RawResult

/-- The RAPTOR backend boundary. -/
structure RaptorService where
  is_ready : Bool
  query_summaries : List Char → Nat → List RawResult

/-- The LanceDB backend boundary. -/
structure LanceDbService where
  available : Bool
  search_chunks : List Char → Nat → List RawResult

/-- The chunking-service fallback boundary. -/
structure ChunkingBackend where
  search_chunks : List Char → Nat → List RawResult

/-- The note-level search-service fallback boundary. -/
structure SearchService where
  search : List Char → Nat → List RawResult

/-- The `RouterAgent` instance: the optional backends it was constructed
with. -/
structure Router where
  search_service : SearchService
  chunking_service : Option ChunkingBackend
  graph_service : Option GraphService
  raptor_service : Option RaptorService
  lancedb_service : Option LanceDbService

/-- `_graph_available`. -/
def graph_available (ra : Router) : Bool :=
  match ra.graph_service with
  | some g => g.is_ready
  | none => false

/-- `_raptor_available`. -/
def raptor_available (ra : Router) : Bool :=
  match ra.raptor_service with
  | some g => g.is_ready
  | none => false

/-- `_lancedb_available`. -/
def lancedb_available (ra : Router) : Bool :=
  match ra.lancedb_service with
  | some l => l.available
  | none => false

/-- The chunking-service / search-service fallback chain inside
`_retrieve_lancedb`. -/
def nonLanceRows (ra : Router) (query : List Char) (mr : Nat) : List RawResult :=
  match ra.chunking_service with
  | some cs => cs.search_chunks query mr
  | none => ra.search_service.search query mr

/-- The raw rows `_retrieve_lancedb` works from. -/
def lancedb_rows (ra : Router) (query : List Char) (mr : Nat) : List RawResult :=
  match ra.lancedb_service with
  | some l => if l.available then l.search_chunks query mr else nonLanceRows ra query mr
  | none => nonLanceRows ra query mr

/-- `_retrieve_lancedb`: the fallback chain, normalized. It never touches the
graph or RAPTOR backends. -/
def retrieve_lancedb (ra : Router) (query : List Char) (mr : Nat) :
    List GroundedContext :=
  results_to_grounded (lancedb_rows ra query mr) "lancedb".data

/-- The supplement loop of `_retrieve_graphrag`: append vector results whose
`note_id` is new, updating the seen set as it goes. -/
def supplementByNoteId (grounded extra : List GroundedContext) :
    List GroundedContext :=
  (extra.foldl (fun (acc : List GroundedContext × List (List Char)) item =>
      if item.note_id ∈ acc.2 then acc
      else (acc.1 ++ [item], acc.2 ++ [item.note_id]))
    (grounded, grounded.map (fun g => g.note_id))).1

/-- `_retrieve_graphrag` (only reached when the graph backend is available;
an absent backend is mapped to no rows). -/
def retrieve_graphrag (ra : Router) (query : List Char) (mr : Nat) :
    List GroundedContext :=
  let graph_results :=
    match ra.graph_service with
    | some g => g.query_relations query mr
    | none => []
  let grounded := results_to_grounded graph_results "graphrag".data
  let g2 :=
    if grounded.length < mr then
      supplementByNoteId grounded (retrieve_lancedb ra query (mr - grounded.length))
    else grounded
  g2.take mr

/-- `_retrieve_raptor` (the seen set is not updated inside its loop, exactly
as in the source). -/
def retrieve_raptor (ra : Router) (query : List Char) (mr : Nat) :
    List GroundedContext :=
  let raptor_results :=
    match ra.raptor_service with
    | some g => g.query_summaries query mr
    | none => []
  let grounded := results_to_grounded raptor_results "raptor".data
  let g2 :=
    if grounded.length < mr then
      grounded ++ (retrieve_lancedb ra query (mr - grounded.length)).filter
        (fun item => item.citation_id ∉ grounded.map (fun g => g.citation_id))
    else grounded
  g2.take mr

/-- First-occurrence-wins deduplication by citation id. -/
def dedupCitation : List GroundedContext → List (List Char) → List GroundedContext
  | [], _ => []
  | x :: t, seen =>
    if x.citation_id ∈ seen then dedupCitation t seen
    else x :: dedupCitation t (x.citation_id :: seen)

/-- `_retrieve_mixed`. -/
def retrieve_mixed (ra : Router) (query : List Char) (mr : Nat) :
    List GroundedContext :=
  let per_source := max 3 (mr / 3)
  let all_results :=
    retrieve_lancedb ra query per_source ++
      (if graph_available ra then
        results_to_grounded
          ((match ra.graph_service with
            | some g => g.query_relations query per_source
            | none => []))
          "graphrag".data
       else []) ++
      (if raptor_available ra then
        results_to_grounded
          ((match ra.raptor_service with
            | some g => g.query_summaries query per_source
            | none => []))
          "raptor".data
       else [])
  let deduped := dedupCitation all_results []
  (stableSort (fun x => -x.relevance_score) deduped).take mr

/-- `retrieve_and_ground` with the optional intent override. -/
def retrieve_and_ground (ra : Router) (query : List Char) (mr : Nat)
    (intent : Option QueryIntent) : List GroundedContext :=
  let it :=
    match intent with
    | some i => i
    | none => classify_rule_based query
  if it = .relational ∧ graph_available ra then retrieve_graphrag ra query mr
  else if it = .summary ∧ raptor_available ra then retrieve_raptor ra query mr
  else if it = .mixed then retrieve_mixed ra query mr
  else retrieve_lancedb ra query mr

end RouterAgent

namespace VibeSearch

/-- A two-note corpus used to instantiate the cache properties. -/
def wNotes : List SNote := [⟨"A".data, "x".data⟩, ⟨"B".data, "y".data⟩]

/-- `wNotes` with the second note's text changed. -/
def wNotes2 : List SNote := [⟨"A".data, "x".data⟩, ⟨"B".data, "z".data⟩]

/-- A deterministic stand-in embedding model (dimension recorded as 4). -/
def wModel : Model := ⟨fun ts => ts.map (fun t => [(t.length : ℚ)]), 4⟩

/-- A one-note corpus used to instantiate the dimensionality property. -/
def dimNotes : List SNote := [⟨"Budget".data, "Q3 budget approved.".data⟩]

/-- A stand-in model of embedding dimension 8. -/
def model8 : Model := ⟨fun ts => ts.map (fun _ => List.replicate 8 (0 : ℚ)), 8⟩

/-- A stand-in model of embedding dimension 16 over the same corpus. -/
def model16 : Model := ⟨fun ts => ts.map (fun _ => List.replicate 16 (0 : ℚ)), 16⟩

end VibeSearch


/-! ## Supporting lemmas -/

namespace Py

theorem lenAux_eq {α : Type} (l : List α) : ∀ n, lenAux l n = l.length + n := by
  induction l with
  | nil => intro n; simp [lenAux]
  | cons a t ih =>
    intro n
    rw [lenAux, ih]
    simp only [List.length_cons]
    omega

theorem pyLen_eq_length {α : Type} (l : List α) : pyLen l = l.length := by
  rw [pyLen, lenAux_eq]
  omega

theorem stableInsert_perm {α : Type} (f : α → ℚ) (x : α) (l : List α) :
    (stableInsert f x l).Perm (x :: l) := by
  induction l with
  | nil => simp [stableInsert]
  | cons y t ih =>
    by_cases h : f y < f x
    · simp only [stableInsert, if_pos h]
      exact (List.Perm.cons y ih).trans (List.Perm.swap x y t)
    · simp [stableInsert, h]

theorem stableSort_perm {α : Type} (f : α → ℚ) (l : List α) :
    (stableSort f l).Perm l := by
  induction l with
  | nil => simp [stableSort]
  | cons x t ih =>
    exact (stableInsert_perm f x (stableSort f t)).trans (List.Perm.cons x ih)

theorem stableInsert_sorted {α : Type} (f : α → ℚ) (x : α) (l : List α)
    (h : l.Pairwise (fun a b => f a ≤ f b)) :
    (stableInsert f x l).Pairwise (fun a b => f a ≤ f b) := by
  induction l with
  | nil => simp [stableInsert]
  | cons y t ih =>
    rcases List.pairwise_cons.mp h with ⟨hy, ht⟩
    by_cases hc : f y < f x
    · simp only [stableInsert, if_pos hc]
      refine List.pairwise_cons.mpr ⟨?_, ih ht⟩
      intro b hb
      have := (stableInsert_perm f x t).mem_iff.mp hb
      rcases List.mem_cons.mp this with hb' | hb'
      · exact hb' ▸ le_of_lt hc
      · exact hy b hb'
    · simp only [stableInsert, if_neg hc]
      refine List.pairwise_cons.mpr ⟨?_, h⟩
      intro b hb
      rcases List.mem_cons.mp hb with hb' | hb'
      · exact hb' ▸ le_of_not_lt hc
      · exact le_trans (le_of_not_lt hc) (hy b hb')

theorem stableSort_sorted {α : Type} (f : α → ℚ) (l : List α) :
    (stableSort f l).Pairwise (fun a b => f a ≤ f b) := by
  induction l with
  | nil => simp [stableSort]
  | cons x t ih => exact stableInsert_sorted f x (stableSort f t) ih

theorem mem_stableSort {α : Type} (f : α → ℚ) (l : List α) (a : α) :
    a ∈ stableSort f l ↔ a ∈ l :=
  (stableSort_perm f l).mem_iff

end Py

namespace CitationService

theorem mem_firstSeenAux (l : List (List Char)) :
    ∀ (seen : List (List Char)) (a : List Char),
      a ∈ firstSeenAux l seen ↔ a ∈ l ∧ a ∉ seen := by
  induction l with
  | nil => intro seen a; simp [firstSeenAux]
  | cons x t ih =>
    intro seen a
    by_cases hx : x ∈ seen
    · simp only [firstSeenAux, if_pos hx]
      rw [ih]
      constructor
      · rintro ⟨ha, hs⟩
        exact ⟨List.mem_cons_of_mem x ha, hs⟩
      · rintro ⟨ha, hs⟩
        rcases List.mem_cons.mp ha with rfl | ha
        · exact absurd hx hs
        · exact ⟨ha, hs⟩
    · simp only [firstSeenAux, if_neg hx]
      rw [List.mem_cons, ih]
      constructor
      · rintro (rfl | ⟨ha, hs⟩)
        · exact ⟨List.mem_cons_self _ _, hx⟩
        · exact ⟨List.mem_cons_of_mem x ha, fun hc => hs (List.mem_cons_of_mem x hc)⟩
      · rintro ⟨ha, hs⟩
        rcases List.mem_cons.mp ha with rfl | ha
        · exact Or.inl rfl
        · by_cases hax : a = x
          · exact Or.inl hax
          · refine Or.inr ⟨ha, fun hc => ?_⟩
            rcases List.mem_cons.mp hc with h | h
            · exact hax h
            · exact hs h

theorem firstSeenAux_sublist (l : List (List Char)) :
    ∀ seen : List (List Char), (firstSeenAux l seen).Sublist l := by
  induction l with
  | nil => intro seen; simp [firstSeenAux]
  | cons x t ih =>
    intro seen
    by_cases hx : x ∈ seen
    · simp only [firstSeenAux, if_pos hx]
      exact (ih seen).cons x
    · simp only [firstSeenAux, if_neg hx]
      exact (ih (x :: seen)).cons₂ x

theorem firstSeenAux_nodup (l : List (List Char)) :
    ∀ seen : List (List Char), (firstSeenAux l seen).Nodup := by
  induction l with
  | nil => intro seen; simp [firstSeenAux]
  | cons x t ih =>
    intro seen
    by_cases hx : x ∈ seen
    · simp only [firstSeenAux, if_pos hx]; exact ih seen
    · simp only [firstSeenAux, if_neg hx]
      refine List.nodup_cons.mpr ⟨fun hc => ?_, ih (x :: seen)⟩
      exact ((mem_firstSeenAux t (x :: seen) x).mp hc).2 (List.mem_cons_self x seen)

theorem mem_firstSeen (l : List (List Char)) (a : List Char) :
    a ∈ firstSeen l ↔ a ∈ l := by
  unfold firstSeen
  rw [mem_firstSeenAux]
  simp

theorem firstSeen_nodup (l : List (List Char)) : (firstSeen l).Nodup :=
  firstSeenAux_nodup l []

theorem firstSeen_ne_nil (l : List (List Char)) (h : l ≠ []) :
    firstSeen l ≠ [] := by
  cases l with
  | nil => exact absurd rfl h
  | cons x t =>
    unfold firstSeen firstSeenAux
    simp

theorem resolveCitation_citation_id (items : List CtxItem) (cid : List Char) :
    (resolveCitation items cid).citation_id = cid := by
  unfold resolveCitation
  cases h : contextLookup items cid with
  | none => rfl
  | some it => cases it <;> rfl

theorem resolveCitation_resolved (items : List CtxItem) (cid : List Char)
    (it : CtxItem) (h : contextLookup items cid = some it) :
    (resolveCitation items cid).note_id = it.noteId ∧
      (resolveCitation items cid).note_title = it.noteTitle := by
  unfold resolveCitation
  rw [h]
  cases it <;> simp [CtxItem.noteId, CtxItem.noteTitle]

theorem resolveCitation_unresolved (items : List CtxItem) (cid : List Char)
    (h : contextLookup items cid = none) :
    (resolveCitation items cid).note_id = [] ∧
      (resolveCitation items cid).note_title = [] := by
  unfold resolveCitation
  rw [h]
  exact ⟨rfl, rfl⟩

theorem structuredCitations_map_id (txt : List Char) (items : List CtxItem) :
    (structuredCitations txt items).map Citation.citation_id
      = firstSeen ((scanMarkers txt).map Py.strip) := by
  unfold structuredCitations
  rw [List.map_map]
  have : (Citation.citation_id ∘ resolveCitation items) = id := by
    funext cid
    exact resolveCitation_citation_id items cid
  rw [this, List.map_id]

theorem structuredCitations_ne_nil (txt : List Char) (items : List CtxItem)
    (h : scanMarkers txt ≠ []) : structuredCitations txt items ≠ [] := by
  unfold structuredCitations
  intro hc
  have h1 : (scanMarkers txt).map Py.strip ≠ [] := by
    simpa using h
  have h2 := firstSeen_ne_nil _ h1
  exact h2 (List.map_eq_nil_iff.mp hc)

theorem extract_eq_structured (txt : List Char) (items : List CtxItem)
    (h : scanMarkers txt ≠ []) :
    extract_grounded_citations txt items = structuredCitations txt items := by
  unfold extract_grounded_citations
  simp only [structuredCitations_ne_nil txt items h, false_and, if_false]

end CitationService

/-! ## Claim theorems -/

namespace CitationService

/-- C3: for every response text containing at least one structured marker and
every context set, `extract_grounded_citations` reports exactly the stripped
marker ids, deduplicated in first-seen order (every marker's id appears, and
appears once); each reported citation is resolved only against the context
items supplied for this call — a citation whose id is found in the context
map carries that item's `note_id` and `note_title`, and a citation whose id
matches no context item is still present, with empty `note_id` and
`note_title`, rather than being dropped. -/
theorem claim_C3_citation_resolution_fidelity
    (txt : List Char) (items : List CtxItem)
    (hm : scanMarkers txt ≠ []) :
    (extract_grounded_citations txt items).map Citation.citation_id
        = firstSeen ((scanMarkers txt).map Py.strip)
    ∧ ((extract_grounded_citations txt items).map Citation.citation_id).Nodup
    ∧ (∀ m ∈ scanMarkers txt,
        Py.strip m ∈ (extract_grounded_citations txt items).map Citation.citation_id)
    ∧ ∀ c ∈ extract_grounded_citations txt items,
        (∀ it, contextLookup items c.citation_id = some it →
            c.note_id = it.noteId ∧ c.note_title = it.noteTitle)
        ∧ (contextLookup items c.citation_id = none →
            c.note_id = [] ∧ c.note_title = []) := by
  have heq := extract_eq_structured txt items hm
  have hmap : (extract_grounded_citations txt items).map Citation.citation_id
      = firstSeen ((scanMarkers txt).map Py.strip) := by
    rw [heq, structuredCitations_map_id]
  refine ⟨hmap, ?_, ?_, ?_⟩
  · rw [hmap]; exact firstSeen_nodup _
  · intro m hmem
    rw [hmap, mem_firstSeen]
    exact List.mem_map_of_mem Py.strip hmem
  · intro c hc
    rw [heq] at hc
    unfold structuredCitations at hc
    rcases List.mem_map.mp hc with ⟨cid, _, rfl⟩
    rw [resolveCitation_citation_id]
    constructor
    · intro it hit
      exact resolveCitation_resolved items cid it hit
    · intro hnone
      exact resolveCitation_unresolved items cid hnone

/-- Concrete instantiation of C3: a response citing one known id, one unknown
id and repeating the known id, against a single-item context. -/
theorem claim_C3_witness :
    (extract_grounded_citations
          "claim [citation:n1_c0]. bogus [citation:zzz] again [citation:n1_c0]".data
          [CtxItem.obj "n1_c0".data "n1".data "T".data none none "txt".data]).map
            Citation.citation_id
        = firstSeen ((scanMarkers
            "claim [citation:n1_c0]. bogus [citation:zzz] again [citation:n1_c0]".data).map
              Py.strip)
    ∧ ((extract_grounded_citations
          "claim [citation:n1_c0]. bogus [citation:zzz] again [citation:n1_c0]".data
          [CtxItem.obj "n1_c0".data "n1".data "T".data none none "txt".data]).map
            Citation.citation_id).Nodup
    ∧ (∀ m ∈ scanMarkers
          "claim [citation:n1_c0]. bogus [citation:zzz] again [citation:n1_c0]".data,
        Py.strip m ∈ (extract_grounded_citations
          "claim [citation:n1_c0]. bogus [citation:zzz] again [citation:n1_c0]".data
          [CtxItem.obj "n1_c0".data "n1".data "T".data none none "txt".data]).map
            Citation.citation_id)
    ∧ ∀ c ∈ extract_grounded_citations
          "claim [citation:n1_c0]. bogus [citation:zzz] again [citation:n1_c0]".data
          [CtxItem.obj "n1_c0".data "n1".data "T".data none none "txt".data],
        (∀ it, contextLookup
              [CtxItem.obj "n1_c0".data "n1".data "T".data none none "txt".data]
              c.citation_id = some it →
            c.note_id = it.noteId ∧ c.note_title = it.noteTitle)
        ∧ (contextLookup
              [CtxItem.obj "n1_c0".data "n1".data "T".data none none "txt".data]
              c.citation_id = none →
            c.note_id = [] ∧ c.note_title = []) :=
  claim_C3_citation_resolution_fidelity
    "claim [citation:n1_c0]. bogus [citation:zzz] again [citation:n1_c0]".data
    [CtxItem.obj "n1_c0".data "n1".data "T".data none none "txt".data]
    (by decide)

/-- C4: whenever a response contains at least one structured
`[citation:...]` marker, `extract_grounded_citations` returns exactly the
structured extraction — the legacy `[Note #N]` grammar is not consulted, and
every returned citation's id stems from a structured marker. -/
theorem claim_C4_legacy_fallback_exclusive
    (txt : List Char) (items : List CtxItem)
    (hm : scanMarkers txt ≠ []) :
    extract_grounded_citations txt items = structuredCitations txt items
    ∧ ∀ c ∈ extract_grounded_citations txt items,
        c.citation_id ∈ (scanMarkers txt).map Py.strip := by
  have heq := extract_eq_structured txt items hm
  refine ⟨heq, ?_⟩
  intro c hc
  rw [heq] at hc
  unfold structuredCitations at hc
  rcases List.mem_map.mp hc with ⟨cid, hcid, rfl⟩
  rw [resolveCitation_citation_id]
  exact (mem_firstSeen _ _).mp hcid

/-- Concrete instantiation of C4: a response holding both a structured
marker and a legacy `[Note #1]` marker; the extraction equals the structured
extraction alone. -/
theorem claim_C4_witness :
    extract_grounded_citations "x [citation:n1_c0] y [Note #1]".data
          [CtxItem.obj "n1_c0".data "n1".data "T".data none none "txt".data]
        = structuredCitations "x [citation:n1_c0] y [Note #1]".data
          [CtxItem.obj "n1_c0".data "n1".data "T".data none none "txt".data]
    ∧ ∀ c ∈ extract_grounded_citations "x [citation:n1_c0] y [Note #1]".data
          [CtxItem.obj "n1_c0".data "n1".data "T".data none none "txt".data],
        c.citation_id ∈ (scanMarkers "x [citation:n1_c0] y [Note #1]".data).map Py.strip :=
  claim_C4_legacy_fallback_exclusive "x [citation:n1_c0] y [Note #1]".data
    [CtxItem.obj "n1_c0".data "n1".data "T".data none none "txt".data]
    (by decide)

end CitationService

namespace RouterAgent

/-- C5: for a query whose (possibly overridden) intent is RELATIONAL, when
the graph backend is absent or not ready, `retrieve_and_ground` returns
exactly the vector-path result (`_retrieve_lancedb`, which never touches the
graph backend), and it returns one grounded item per raw vector-path row —
so the result is non-empty whenever the vector path has data. -/
theorem claim_C5_router_relational_fallback
    (ra : Router) (query : List Char) (mr : Nat) (intent : Option QueryIntent)
    (hrel : intent = some QueryIntent.relational ∨
      (intent = none ∧ classify_rule_based query = QueryIntent.relational))
    (hun : graph_available ra = false) :
    retrieve_and_ground ra query mr intent = retrieve_lancedb ra query mr
    ∧ (retrieve_and_ground ra query mr intent).length
        = (lancedb_rows ra query mr).length := by
  have heq : retrieve_and_ground ra query mr intent = retrieve_lancedb ra query mr := by
    rcases hrel with h | ⟨h1, h2⟩
    · subst h
      unfold retrieve_and_ground
      simp [hun]
    · subst h1
      unfold retrieve_and_ground
      simp [h2, hun]
  refine ⟨heq, ?_⟩
  rw [heq]
  unfold retrieve_lancedb results_to_grounded
  exact List.length_map _ _

/-- Concrete instantiation of C5: a router whose graph backend exists but is
not ready, with a chunking-service fallback that returns one row; a query
classified RELATIONAL returns that row via the vector path. -/
theorem claim_C5_witness :
    retrieve_and_ground
        { search_service := ⟨fun _ _ => []⟩,
          chunking_service :=
            some ⟨fun _ _ => [{ (default : RawResult) with
              id := some "a".data, title := some "Budget".data,
              text := some "Q3 budget approved.".data, score := some 1 }]⟩,
          graph_service := some ⟨false, fun _ _ => []⟩,
          raptor_service := none, lancedb_service := none }
        "how does the budget relate to travel".data 5 none
      = retrieve_lancedb
        { search_service := ⟨fun _ _ => []⟩,
          chunking_service :=
            some ⟨fun _ _ => [{ (default : RawResult) with
              id := some "a".data, title := some "Budget".data,
              text := some "Q3 budget approved.".data, score := some 1 }]⟩,
          graph_service := some ⟨false, fun _ _ => []⟩,
          raptor_service := none, lancedb_service := none }
        "how does the budget relate to travel".data 5
    ∧ (retrieve_and_ground
        { search_service := ⟨fun _ _ => []⟩,
          chunking_service :=
            some ⟨fun _ _ => [{ (default : RawResult) with
              id := some "a".data, title := some "Budget".data,
              text := some "Q3 budget approved.".data, score := some 1 }]⟩,
          graph_service := some ⟨false, fun _ _ => []⟩,
          raptor_service := none, lancedb_service := none }
        "how does the budget relate to travel".data 5 none).length
      = (lancedb_rows
        { search_service := ⟨fun _ _ => []⟩,
          chunking_service :=
            some ⟨fun _ _ => [{ (default : RawResult) with
              id := some "a".data, title := some "Budget".data,
              text := some "Q3 budget approved.".data, score := some 1 }]⟩,
          graph_service := some ⟨false, fun _ _ => []⟩,
          raptor_service := none, lancedb_service := none }
        "how does the budget relate to travel".data 5).length :=
  claim_C5_router_relational_fallback _ _ 5 none
    (Or.inr ⟨rfl, by decide⟩) rfl

end RouterAgent

namespace VibeSearch

open Py

/-- C1: a note whose semantic similarity is at most the semantic threshold,
whose keyword-overlap score is zero, and whose image-match score is at most
the image threshold is never in the result list of `search`, regardless of
its combined score. -/
theorem claim_C1_hybrid_scorer_exclusion
    (notes : List SNote) (semantic : List ℚ) (imageScore : Nat → ℚ)
    (sThr imgThr imgW : ℚ) (query : List Char) (mr : Nat) (note_idx : Nat)
    (hsem : ∀ i, i < (note_indices notes).length →
      (note_indices notes).getD i 0 = note_idx → semantic.getD i 0 ≤ sThr)
    (hkw : lookupD (keyword_search notes query) note_idx 0 = 0)
    (himg : imageScore note_idx ≤ imgThr) :
    note_idx ∉ (search notes semantic imageScore sThr imgThr imgW query mr).map
      Prod.fst := by
  intro hmem
  unfold search at hmem
  by_cases hq : strip query = []
  · simp [hq] at hmem
  · simp only [if_neg hq] at hmem
    rcases List.mem_map.mp hmem with ⟨y, hy, hfst⟩
    rcases List.mem_filterMap.mp hy with ⟨x, hx, hsome⟩
    by_cases hinc : x.2.2
    · have hx1 : x.1 = note_idx := by
        rw [if_pos hinc] at hsome
        have : (x.1, x.2.1) = y := Option.some.inj hsome
        rw [← hfst, ← this]
      have hmem2 : x ∈ stableSort (fun z => -z.2.1)
          (candidateScores notes semantic imageScore sThr imgThr imgW query) :=
        (List.take_sublist mr _).mem hx
      have hmem3 : x ∈ candidateScores notes semantic imageScore sThr imgThr imgW query :=
        (mem_stableSort _ _ x).mp hmem2
      unfold candidateScores at hmem3
      rcases List.mem_map.mp hmem3 with ⟨i, hi, hxi⟩
      have hilen : i < (note_indices notes).length := List.mem_range.mp hi
      have hidx : (note_indices notes).getD i 0 = note_idx := by
        rw [← hx1, ← hxi]
      have hs := hsem i hilen hidx
      have hincl : x.2.2 =
          (decide (sThr < semantic.getD i 0) ||
            decide (0 < lookupD (keyword_search notes query)
              ((note_indices notes).getD i 0) 0) ||
            decide (imgThr < imageScore ((note_indices notes).getD i 0))) := by
        rw [← hxi]
      rw [hidx, hkw] at hincl
      have h1 : decide (sThr < semantic.getD i 0) = false :=
        decide_eq_false (not_lt.mpr hs)
      have h2 : decide ((0 : ℚ) < 0) = false := by decide
      have h3 : decide (imgThr < imageScore note_idx) = false :=
        decide_eq_false (not_lt.mpr himg)
      rw [h1, h2, h3] at hincl
      simp at hincl
      exact absurd hincl (by simpa using hinc)
    · rw [if_neg hinc] at hsome
      exact Option.noConfusion hsome

/-- Concrete instantiation of C1: one note with semantic score equal to the
threshold, no keyword overlap and no image match is excluded. -/
theorem claim_C1_witness :
    0 ∉ (search [⟨"Budget".data, "Q3 budget approved.".data⟩]
        [(1 : ℚ)/4] (fun _ => 0) ((1 : ℚ)/4) ((1 : ℚ)/5) ((3 : ℚ)/10)
        "qqq zzz".data 20).map Prod.fst :=
  claim_C1_hybrid_scorer_exclusion
    [⟨"Budget".data, "Q3 budget approved.".data⟩]
    [(1 : ℚ)/4] (fun _ => 0) ((1 : ℚ)/4) ((1 : ℚ)/5) ((3 : ℚ)/10)
    "qqq zzz".data 20 0
    (by with_unfolding_all decide) (by with_unfolding_all decide)
    (by with_unfolding_all decide)

end VibeSearch

namespace VibeSearch

/-- C10: `search` truncates to the `max_results` highest combined scores over
all candidates before applying the inclusion rule — for a non-empty query the
result is exactly the inclusion-satisfying part of the top-`max_results`
slice of the candidate list sorted by combined score descending (the sort
being a permutation of all candidates, ordered by descending score).
Consequently, on a concrete input with three notes and `max_results = 1`,
`search` returns nothing even though two candidates satisfy the inclusion
rule. -/
theorem claim_C10_topk_before_inclusion_filter :
    (∀ (notes : List SNote) (semantic : List ℚ) (imageScore : Nat → ℚ)
        (sThr imgThr imgW : ℚ) (query : List Char) (mr : Nat),
      Py.strip query ≠ [] →
        search notes semantic imageScore sThr imgThr imgW query mr
            = ((Py.stableSort (fun x => -x.2.1)
                (candidateScores notes semantic imageScore sThr imgThr imgW
                  query)).take mr).filterMap
                (fun x => if x.2.2 then some (x.1, x.2.1) else none)
          ∧ (Py.stableSort (fun x => -x.2.1)
              (candidateScores notes semantic imageScore sThr imgThr imgW
                query)).Perm
              (candidateScores notes semantic imageScore sThr imgThr imgW query)
          ∧ (Py.stableSort (fun x => -x.2.1)
              (candidateScores notes semantic imageScore sThr imgThr imgW
                query)).Pairwise (fun a b => b.2.1 ≤ a.2.1))
    ∧ search
          [⟨"A".data, "nothing here".data⟩, ⟨"B".data, "apple pie".data⟩,
            ⟨"C".data, "apple tart".data⟩]
          [0, mkRat (-1) 2, mkRat (-1) 2] (fun _ => 0) 0 (mkRat 1 5)
          (mkRat 3 10) "apple banana".data 1 = []
    ∧ 1 < ((candidateScores
          [⟨"A".data, "nothing here".data⟩, ⟨"B".data, "apple pie".data⟩,
            ⟨"C".data, "apple tart".data⟩]
          [0, mkRat (-1) 2, mkRat (-1) 2] (fun _ => 0) 0 (mkRat 1 5)
          (mkRat 3 10) "apple banana".data).filter (fun x => x.2.2)).length := by
  refine ⟨?_, by with_unfolding_all decide, by with_unfolding_all decide⟩
  intro notes semantic imageScore sThr imgThr imgW query mr hq
  refine ⟨?_, Py.stableSort_perm _ _, ?_⟩
  · unfold search
    rw [if_neg hq]
  · have := Py.stableSort_sorted (fun x : Nat × ℚ × Bool => -x.2.1)
      (candidateScores notes semantic imageScore sThr imgThr imgW query)
    exact this.imp (fun h => neg_le_neg_iff.mp h)

/-- Concrete instantiation of the universally quantified part of C10, at the
same three-note corpus with `max_results = 3`. -/
theorem claim_C10_witness :
    search
        [⟨"A".data, "nothing here".data⟩, ⟨"B".data, "apple pie".data⟩,
          ⟨"C".data, "apple tart".data⟩]
        [0, mkRat (-1) 2, mkRat (-1) 2] (fun _ => 0) 0 (mkRat 1 5)
        (mkRat 3 10) "apple banana".data 3
        = ((Py.stableSort (fun x => -x.2.1)
            (candidateScores
              [⟨"A".data, "nothing here".data⟩, ⟨"B".data, "apple pie".data⟩,
                ⟨"C".data, "apple tart".data⟩]
              [0, mkRat (-1) 2, mkRat (-1) 2] (fun _ => 0) 0 (mkRat 1 5)
              (mkRat 3 10) "apple banana".data)).take 3).filterMap
            (fun x => if x.2.2 then some (x.1, x.2.1) else none)
      ∧ (Py.stableSort (fun x => -x.2.1)
          (candidateScores
            [⟨"A".data, "nothing here".data⟩, ⟨"B".data, "apple pie".data⟩,
              ⟨"C".data, "apple tart".data⟩]
            [0, mkRat (-1) 2, mkRat (-1) 2] (fun _ => 0) 0 (mkRat 1 5)
            (mkRat 3 10) "apple banana".data)).Perm
          (candidateScores
            [⟨"A".data, "nothing here".data⟩, ⟨"B".data, "apple pie".data⟩,
              ⟨"C".data, "apple tart".data⟩]
            [0, mkRat (-1) 2, mkRat (-1) 2] (fun _ => 0) 0 (mkRat 1 5)
            (mkRat 3 10) "apple banana".data)
      ∧ (Py.stableSort (fun x => -x.2.1)
          (candidateScores
            [⟨"A".data, "nothing here".data⟩, ⟨"B".data, "apple pie".data⟩,
              ⟨"C".data, "apple tart".data⟩]
            [0, mkRat (-1) 2, mkRat (-1) 2] (fun _ => 0) 0 (mkRat 1 5)
            (mkRat 3 10) "apple banana".data)).Pairwise
          (fun a b => b.2.1 ≤ a.2.1) :=
  claim_C10_topk_before_inclusion_filter.1
    [⟨"A".data, "nothing here".data⟩, ⟨"B".data, "apple pie".data⟩,
      ⟨"C".data, "apple tart".data⟩]
    [0, mkRat (-1) 2, mkRat (-1) 2] (fun _ => 0) 0 (mkRat 1 5)
    (mkRat 3 10) "apple banana".data 3 (by decide)

end VibeSearch

namespace VibeSearch

/-- C9: `get_clusters` caps the effective cluster count at
`max(2, int(0.75 * n))` (so at most `min(num_clusters, max 2 (3n/4))`
clusters are returned — in particular at most 7 for 10 notes and a request
of 20), sorts the clusters by size descending, and orders the notes inside
each cluster by ascending distance to the cluster centroid. -/
theorem claim_C9_cluster_cap_and_order
    (num_clusters : Nat) (labels : List Nat) (dist : Nat → ℚ) :
    (get_clusters num_clusters labels dist).length
        ≤ min num_clusters (max 2 (labels.length * 3 / 4))
    ∧ (get_clusters num_clusters labels dist).Pairwise
        (fun a b => b.size ≤ a.size)
    ∧ (∀ cl ∈ get_clusters num_clusters labels dist,
        cl.size = cl.notes.length
          ∧ cl.notes.Pairwise (fun i j => dist i ≤ dist j))
    ∧ (labels.length = 10 → num_clusters = 20 →
        (get_clusters num_clusters labels dist).length ≤ 7) := by
  have hlen : (get_clusters num_clusters labels dist).length
      ≤ min num_clusters (max 2 (labels.length * 3 / 4)) := by
    unfold get_clusters
    have h1 := (Py.stableSort_perm (fun cl : Cluster => -(cl.size : ℚ))
      ((List.range (min num_clusters (max 2 (labels.length * 3 / 4)))).filterMap
        (fun c =>
          let rows := Py.stableSort dist (cluster_rows labels c)
          if rows = [] then none
          else some { id := c, notes := rows, size := rows.length }))).length_eq
    rw [h1]
    calc _ ≤ (List.range (min num_clusters (max 2 (labels.length * 3 / 4)))).length :=
          List.length_filterMap_le _ _
      _ = _ := List.length_range _
  refine ⟨hlen, ?_, ?_, ?_⟩
  · unfold get_clusters
    have := Py.stableSort_sorted (fun cl : Cluster => -(cl.size : ℚ))
      ((List.range (min num_clusters (max 2 (labels.length * 3 / 4)))).filterMap
        (fun c =>
          let rows := Py.stableSort dist (cluster_rows labels c)
          if rows = [] then none
          else some { id := c, notes := rows, size := rows.length }))
    refine this.imp (fun h => ?_)
    exact_mod_cast neg_le_neg_iff.mp h
  · intro cl hcl
    unfold get_clusters at hcl
    have hraw := (Py.mem_stableSort (fun cl : Cluster => -(cl.size : ℚ)) _ cl).mp hcl
    rcases List.mem_filterMap.mp hraw with ⟨c, _, hc⟩
    by_cases hrows : Py.stableSort dist (cluster_rows labels c) = []
    · simp only [hrows, if_pos] at hc
      exact absurd hc (by simp)
    · simp only [if_neg hrows] at hc
      obtain rfl := Option.some.inj hc
      exact ⟨rfl, Py.stableSort_sorted dist _⟩
  · intro h10 h20
    have : min num_clusters (max 2 (labels.length * 3 / 4)) = 7 := by
      rw [h10, h20]
      decide
    omega

/-- Concrete instantiation of C9: a 10-note corpus, a request for 20
clusters, at most 7 clusters come back. -/
theorem claim_C9_witness :
    (get_clusters 20 [0, 1, 2, 0, 1, 2, 3, 4, 5, 6] (fun i => (i : ℚ))).length ≤ 7 :=
  (claim_C9_cluster_cap_and_order 20 [0, 1, 2, 0, 1, 2, 3, 4, 5, 6]
    (fun i => (i : ℚ))).2.2.2 rfl rfl

end VibeSearch

namespace VibeSearch

/-- C7: (1) running `load_or_compute_embeddings` twice over an unchanged note
set — from any starting cache state — reports "loaded from cache" on the
second run and returns the same vectors as the first; (2) when exactly one
indexed note text changes and the digest function has no collision between
the two text concatenations, the cache is invalid and the embeddings are
fully recomputed; (3) a corrupt hash file makes the cache invalid (silent
recomputation, no error), and a corrupt embeddings file silently falls back
to recomputation as well. -/
theorem claim_C7_cache_idempotence_and_invalidation
    (M : Model) (md5 : List Char → List Char) (notes : List SNote)
    (fs0 : CacheFS) :
    ((load_or_compute_embeddings M md5 notes
        (load_or_compute_embeddings M md5 notes fs0).2.1).2.2 = true
      ∧ (load_or_compute_embeddings M md5 notes
          (load_or_compute_embeddings M md5 notes fs0).2.1).1
        = (load_or_compute_embeddings M md5 notes fs0).1)
    ∧ (∀ (notes' : List SNote) (pre post : List (List Char)) (t t' : List Char),
        t ≠ t' → texts notes = pre ++ t :: post → texts notes' = pre ++ t' :: post →
        md5 ((texts notes').flatten) ≠ md5 ((texts notes).flatten) →
        (load_or_compute_embeddings M md5 notes'
            (load_or_compute_embeddings M md5 notes fs0).2.1).2.2 = false
        ∧ (load_or_compute_embeddings M md5 notes'
            (load_or_compute_embeddings M md5 notes fs0).2.1).1
          = M.encode (texts notes'))
    ∧ (∀ (pre post : List (List Char)) (t t' : List Char),
        t ≠ t' → (pre ++ t :: post).flatten ≠ (pre ++ t' :: post).flatten)
    ∧ (fs0.hash_file = some HashFile.corrupt →
        (load_or_compute_embeddings M md5 notes fs0).2.2 = false
        ∧ (load_or_compute_embeddings M md5 notes fs0).1 = M.encode (texts notes))
    ∧ (fs0.emb_file = some EmbFile.corrupt →
        (load_or_compute_embeddings M md5 notes fs0).1 = M.encode (texts notes)) := by
  constructor
  · by_cases hv : is_cache_valid fs0 notes (compute_notes_hash md5 notes)
    · unfold load_or_compute_embeddings
      simp only [if_pos hv, hv]
      simp [hv]
    · unfold load_or_compute_embeddings
      simp only [if_neg hv]
      have hvalid : is_cache_valid
          (save_embeddings_to_cache M notes (M.encode (texts notes))
            (compute_notes_hash md5 notes)) notes
          (compute_notes_hash md5 notes) = true := by
        unfold is_cache_valid save_embeddings_to_cache
        simp
      simp only [hvalid, if_pos]
      constructor
      · simp
      · unfold load_embeddings_from_cache save_embeddings_to_cache
        simp
  refine ⟨?_, ?_, ?_, ?_⟩
  · intro notes' pre post t t' _ _ _ hdiff
    have hcur : compute_notes_hash md5 notes' ≠ compute_notes_hash md5 notes := hdiff
    have hinvalid : is_cache_valid (load_or_compute_embeddings M md5 notes fs0).2.1
        notes' (compute_notes_hash md5 notes') = false := by
      unfold load_or_compute_embeddings
      by_cases hv : is_cache_valid fs0 notes (compute_notes_hash md5 notes)
      · simp only [if_pos hv]
        revert hv
        unfold is_cache_valid
        cases hemb : fs0.emb_file with
        | none => intro hv; simp at hv
        | some e =>
          cases hhash : fs0.hash_file with
          | none => intro hv; simp at hv
          | some hf =>
            cases hf with
            | corrupt => intro hv; simp at hv
            | info ci =>
              intro hv
              simp only [Bool.and_eq_true, decide_eq_true_eq] at hv
              simp only [Bool.and_eq_false_iff, decide_eq_false_iff_not]
              exact Or.inl (fun hc => hcur (hc.symm.trans hv.1))
      · simp only [if_neg hv]
        unfold is_cache_valid save_embeddings_to_cache
        simp only [Bool.and_eq_false_iff, decide_eq_false_iff_not]
        exact Or.inl (fun hc => hcur hc.symm)
    generalize hg : (load_or_compute_embeddings M md5 notes fs0).2.1 = fs1 at hinvalid ⊢
    unfold load_or_compute_embeddings
    simp [hinvalid]
  · intro pre post t t' hne hc
    apply hne
    have h1 : pre.flatten ++ (t ++ post.flatten)
        = pre.flatten ++ (t' ++ post.flatten) := by
      simpa [List.flatten_append, List.append_assoc] using hc
    have h2 : t ++ post.flatten = t' ++ post.flatten :=
      List.append_cancel_left h1
    exact List.append_cancel_right h2
  · intro hcor
    have hinvalid : is_cache_valid fs0 notes (compute_notes_hash md5 notes) = false := by
      unfold is_cache_valid
      rw [hcor]
      cases fs0.emb_file <;> simp
    unfold load_or_compute_embeddings
    simp [hinvalid]
  · intro hcor
    unfold load_or_compute_embeddings
    by_cases hv : is_cache_valid fs0 notes (compute_notes_hash md5 notes)
    · simp only [if_pos hv]
      unfold load_embeddings_from_cache
      rw [hcor]
    · simp only [if_neg hv]

end VibeSearch

namespace VibeSearch

/-- Concrete instantiation of C7: a two-note corpus cached from an empty
cache directory, rerun unchanged (loads, same vectors), rerun with one
note's text changed (recomputes), and run over corrupt cache files
(recomputes silently). -/
theorem claim_C7_witness :
    ((load_or_compute_embeddings wModel (fun h => h) wNotes
        (load_or_compute_embeddings wModel (fun h => h) wNotes ⟨none, none⟩).2.1).2.2 = true
      ∧ (load_or_compute_embeddings wModel (fun h => h) wNotes
          (load_or_compute_embeddings wModel (fun h => h) wNotes ⟨none, none⟩).2.1).1
        = (load_or_compute_embeddings wModel (fun h => h) wNotes ⟨none, none⟩).1)
    ∧ ((load_or_compute_embeddings wModel (fun h => h) wNotes2
          (load_or_compute_embeddings wModel (fun h => h) wNotes ⟨none, none⟩).2.1).2.2 = false
      ∧ (load_or_compute_embeddings wModel (fun h => h) wNotes2
          (load_or_compute_embeddings wModel (fun h => h) wNotes ⟨none, none⟩).2.1).1
        = wModel.encode (texts wNotes2))
    ∧ ((load_or_compute_embeddings wModel (fun h => h) wNotes
          ⟨some EmbFile.corrupt, some HashFile.corrupt⟩).2.2 = false
      ∧ (load_or_compute_embeddings wModel (fun h => h) wNotes
          ⟨some EmbFile.corrupt, some HashFile.corrupt⟩).1
        = wModel.encode (texts wNotes))
    ∧ (load_or_compute_embeddings wModel (fun h => h) wNotes
        ⟨some EmbFile.corrupt, some (HashFile.info ⟨"h".data, 2, 4⟩)⟩).1
      = wModel.encode (texts wNotes) :=
  ⟨(claim_C7_cache_idempotence_and_invalidation wModel (fun h => h) wNotes
      ⟨none, none⟩).1,
   (claim_C7_cache_idempotence_and_invalidation wModel (fun h => h) wNotes
      ⟨none, none⟩).2.1 wNotes2 ["A x".data] [] "B y".data "B z".data
      (by decide) (by decide) (by decide) (by decide),
   (claim_C7_cache_idempotence_and_invalidation wModel (fun h => h) wNotes
      ⟨some EmbFile.corrupt, some HashFile.corrupt⟩).2.2.2.1 rfl,
   (claim_C7_cache_idempotence_and_invalidation wModel (fun h => h) wNotes
      ⟨some EmbFile.corrupt, some (HashFile.info ⟨"h".data, 2, 4⟩)⟩).2.2.2.2 rfl⟩

/-- C8 (code bug): the cache written under an embedding model of dimension 8
records that dimension (under the `model_name` key) but `_is_cache_valid`
never reads it, so a later run with a model of dimension 16 over the same
notes still reports "loaded from cache" and returns the stale 8-dimensional
vectors instead of recomputing. -/
theorem claim_C8_dimension_mismatch_cache_reused :
    (load_or_compute_embeddings model16 (fun h => h) dimNotes
        (load_or_compute_embeddings model8 (fun h => h) dimNotes ⟨none, none⟩).2.1).2.2 = true
    ∧ (load_or_compute_embeddings model16 (fun h => h) dimNotes
        (load_or_compute_embeddings model8 (fun h => h) dimNotes ⟨none, none⟩).2.1).1
      = model8.encode (texts dimNotes)
    ∧ (load_or_compute_embeddings model16 (fun h => h) dimNotes
        (load_or_compute_embeddings model8 (fun h => h) dimNotes ⟨none, none⟩).2.1).1
      ≠ model16.encode (texts dimNotes)
    ∧ (load_or_compute_embeddings model8 (fun h => h) dimNotes ⟨none, none⟩).2.1.hash_file
      = some (HashFile.info ⟨(texts dimNotes).flatten, 1, 8⟩)
    ∧ model16.dim = 16 := by
  refine ⟨?_, ?_, ?_, ?_, rfl⟩ <;> with_unfolding_all decide

end VibeSearch

namespace ChunkingService

theorem getLastD_mem {α : Type} (l : List α) :
    ∀ d : α, l ≠ [] → l.getLastD d ∈ l := by
  induction l with
  | nil => intro d h; exact absurd rfl h
  | cons a t ih =>
    intro d _
    cases ht : t with
    | nil => subst ht; simp [List.getLastD]
    | cons b u =>
      subst ht
      have h1 : (a :: b :: u).getLastD d = (b :: u).getLastD a := rfl
      rw [h1]
      exact List.mem_cons_of_mem a (ih a (by simp))

theorem merge_foldl_min (rest : List (List Char)) :
    ∀ st : List (List Char) × List Char,
      (∀ c ∈ st.1, MIN_CHUNK_LENGTH ≤ c.length) →
      ∀ c ∈ (rest.foldl mergeStep st).1, MIN_CHUNK_LENGTH ≤ c.length := by
  induction rest with
  | nil => intro st h c hc; exact h c hc
  | cons p t ih =>
    intro st h
    rw [List.foldl_cons]
    apply ih
    intro c hc
    simp only [mergeStep] at hc
    split_ifs at hc with h1 h2
    · exact h c hc
    · rcases List.mem_append.mp hc with hm | hm
      · exact h c hm
      · rw [List.mem_singleton.mp hm, ← Py.pyLen_eq_length]; exact h2
    · exact h c hc

theorem merge_foldl_max (rest : List (List Char)) :
    ∀ st : List (List Char) × List Char,
      (∀ p ∈ rest, p.length ≤ MAX_CHUNK_LENGTH - MIN_CHUNK_LENGTH - 1) →
      (∀ c ∈ st.1, c.length ≤ MAX_CHUNK_LENGTH) →
      st.2.length ≤ MAX_CHUNK_LENGTH →
      (∀ c ∈ (rest.foldl mergeStep st).1, c.length ≤ MAX_CHUNK_LENGTH)
        ∧ (rest.foldl mergeStep st).2.length ≤ MAX_CHUNK_LENGTH := by
  induction rest with
  | nil => intro st _ h1 h2; exact ⟨h1, h2⟩
  | cons p t ih =>
    intro st hp h1 h2
    rw [List.foldl_cons]
    apply ih
    · intro q hq; exact hp q (List.mem_cons_of_mem p hq)
    · intro c hc
      simp only [mergeStep] at hc
      split_ifs at hc with hc1 hc2
      · exact h1 c hc
      · rcases List.mem_append.mp hc with hm | hm
        · exact h1 c hm
        · rw [List.mem_singleton.mp hm]; exact h2
      · exact h1 c hc
    · simp only [mergeStep]
      have hplen := hp p (List.mem_cons_self p t)
      split_ifs with hc1 hc2
      · rw [← Py.pyLen_eq_length]
        exact hc1
      · simp only [MAX_CHUNK_LENGTH, MIN_CHUNK_LENGTH] at hplen ⊢
        omega
      · rw [Py.pyLen_eq_length] at hc1 hc2
        simp only [List.length_append, List.length_cons] at hc1 ⊢
        simp only [MAX_CHUNK_LENGTH, MIN_CHUNK_LENGTH] at hplen hc2 ⊢
        omega

theorem merge_paragraphs_min (ps : List (List Char)) :
    ∀ c ∈ merge_paragraphs ps,
      MIN_CHUNK_LENGTH ≤ c.length ∨ merge_paragraphs ps = [c] := by
  cases ps with
  | nil => intro c hc; simp [merge_paragraphs] at hc
  | cons p0 rest =>
    have hinv := merge_foldl_min rest ([], p0) (by intro c hc; simp at hc)
    simp only [merge_paragraphs]
    split_ifs with hs hm
    · intro c hc
      rcases List.mem_append.mp hc with h | h
      · exact Or.inl (hinv c ((List.dropLast_sublist _).subset h))
      · rw [List.mem_singleton.mp h]
        refine Or.inl (le_trans (hinv _ (getLastD_mem _ [] hm.1)) ?_)
        simp only [List.length_append]
        omega
    · intro c hc
      rcases List.mem_append.mp hc with h | h
      · exact Or.inl (hinv c h)
      · rw [List.mem_singleton.mp h]
        rcases not_and_or.mp hm with h1 | h1
        · have hnil : (rest.foldl mergeStep ([], p0)).1 = [] := not_not.mp h1
          right
          rw [hnil, List.nil_append]
        · refine Or.inl ?_
          rw [← Py.pyLen_eq_length]
          exact not_lt.mp h1
    · intro c hc
      exact Or.inl (hinv c hc)

theorem merge_paragraphs_max (ps : List (List Char))
    (hp : ∀ p ∈ ps, p.length ≤ MAX_CHUNK_LENGTH - MIN_CHUNK_LENGTH - 1) :
    (∀ c ∈ (merge_paragraphs ps).dropLast, c.length ≤ MAX_CHUNK_LENGTH)
    ∧ ∀ c ∈ merge_paragraphs ps,
        c.length ≤ MAX_CHUNK_LENGTH + MIN_CHUNK_LENGTH + 1 := by
  cases ps with
  | nil => simp [merge_paragraphs]
  | cons p0 rest =>
    obtain ⟨hchunks, hcur⟩ := merge_foldl_max rest ([], p0)
      (fun q hq => hp q (List.mem_cons_of_mem p0 hq))
      (by intro c hc; simp at hc)
      (le_trans (hp p0 (List.mem_cons_self p0 rest))
        (by simp only [MAX_CHUNK_LENGTH, MIN_CHUNK_LENGTH]; omega))
    simp only [merge_paragraphs]
    split_ifs with hs hm
    · constructor
      · intro c hc
        rw [List.dropLast_concat] at hc
        exact hchunks c ((List.dropLast_sublist _).subset hc)
      · intro c hc
        rcases List.mem_append.mp hc with h | h
        · exact le_trans (hchunks c ((List.dropLast_sublist _).subset h)) (by omega)
        · rw [List.mem_singleton.mp h]
          have h2 := hchunks _ (getLastD_mem _ [] hm.1)
          have h3 := hm.2
          rw [Py.pyLen_eq_length] at h3
          simp only [List.length_append, List.length_cons]
          simp only [MIN_CHUNK_LENGTH, MAX_CHUNK_LENGTH] at h2 h3 ⊢
          omega
    · constructor
      · intro c hc
        rw [List.dropLast_concat] at hc
        exact hchunks c hc
      · intro c hc
        rcases List.mem_append.mp hc with h | h
        · exact le_trans (hchunks c h) (by omega)
        · rw [List.mem_singleton.mp h]
          exact le_trans hcur (by omega)
    · constructor
      · intro c hc
        exact hchunks c ((List.dropLast_sublist _).subset hc)
      · intro c hc
        exact le_trans (hchunks c hc) (by omega)

end ChunkingService

namespace ChunkingService

/-- C6 (amended): for a note whose combined title+content exceeds the
short-note threshold and whose content splits into blocks of at most
`MAX_CHUNK_LENGTH - MIN_CHUNK_LENGTH - 1` characters, (1) every emitted
chunk has text at least `MIN_CHUNK_LENGTH` long unless it is the note's sole
chunk; (2) every chunk other than the first and the last is at most
`MAX_CHUNK_LENGTH` long; (3) a non-first chunk never exceeds
`MAX_CHUNK_LENGTH + MIN_CHUNK_LENGTH + 1` (the slack being a terminal
undersized remainder merged into it); (4) the first chunk of a multi-chunk
note is at most `MAX_CHUNK_LENGTH` plus the prepended title; (5) no chunk
ever exceeds `MAX_CHUNK_LENGTH + MIN_CHUNK_LENGTH + 1` plus the prepended
title. -/
theorem claim_C6_chunk_size_invariant (note : KNote)
    (hlong : SHORT_NOTE_THRESHOLD < (full_text note).length)
    (hblocks : ∀ p ∈ split_into_paragraphs note.content,
        p.length ≤ MAX_CHUNK_LENGTH - MIN_CHUNK_LENGTH - 1) :
    (∀ ch ∈ build_chunks_note note,
        MIN_CHUNK_LENGTH ≤ ch.text.length ∨ (build_chunks_note note).length = 1)
    ∧ (∀ ch ∈ build_chunks_note note, 0 < ch.chunk_index →
        ch.chunk_index + 1 < (build_chunks_note note).length →
        ch.text.length ≤ MAX_CHUNK_LENGTH)
    ∧ (∀ ch ∈ build_chunks_note note, 0 < ch.chunk_index →
        ch.text.length ≤ MAX_CHUNK_LENGTH + MIN_CHUNK_LENGTH + 1)
    ∧ (∀ ch ∈ build_chunks_note note, ch.chunk_index = 0 →
        1 < (build_chunks_note note).length →
        ch.text.length ≤ MAX_CHUNK_LENGTH + note.title.length + 1)
    ∧ (∀ ch ∈ build_chunks_note note,
        ch.text.length
          ≤ MAX_CHUNK_LENGTH + MIN_CHUNK_LENGTH + 1 + note.title.length + 1) := by
  by_cases hid : note.id = []
  · have hb : build_chunks_note note = [] := by simp [build_chunks_note, hid]
    refine ⟨?_, ?_, ?_, ?_, ?_⟩ <;> simp [hb]
  · have hft : full_text note ≠ [] := by
      intro h
      rw [h] at hlong
      simp [SHORT_NOTE_THRESHOLD] at hlong
    have hnotshort : ¬ Py.pyLen (full_text note) ≤ SHORT_NOTE_THRESHOLD := by
      rw [Py.pyLen_eq_length]
      exact not_le.mpr hlong
    have hb : build_chunks_note note
        = (merge_paragraphs (split_into_paragraphs note.content)).enum.map
            (fun p => (⟨note.id, p.1,
              if p.1 = 0 then note.title ++ ' ' :: p.2 else p.2,
              note.title⟩ : NoteChunk)) := by
      simp only [build_chunks_note]
      rw [if_neg hid, if_neg hft, if_neg hnotshort]
    have hlen : (build_chunks_note note).length
        = (merge_paragraphs (split_into_paragraphs note.content)).length := by
      rw [hb, List.length_map, List.enum_length]
    have hmax := merge_paragraphs_max (split_into_paragraphs note.content) hblocks
    have hmin := merge_paragraphs_min (split_into_paragraphs note.content)
    have hdecomp : ∀ ch ∈ build_chunks_note note, ∃ i c,
        (merge_paragraphs (split_into_paragraphs note.content)).get? i = some c
        ∧ ch.chunk_index = i
        ∧ ch.text = (if i = 0 then note.title ++ ' ' :: c else c) := by
      intro ch hch
      rw [hb] at hch
      rcases List.mem_map.mp hch with ⟨p, hp, rfl⟩
      exact ⟨p.1, p.2, List.mem_enum_iff_get?.mp hp, rfl, rfl⟩
    have hdl : ∀ i c,
        (merge_paragraphs (split_into_paragraphs note.content)).get? i = some c →
        i + 1 < (merge_paragraphs (split_into_paragraphs note.content)).length →
        c ∈ (merge_paragraphs (split_into_paragraphs note.content)).dropLast := by
      intro i c hget hi
      rcases List.get?_eq_some.mp hget with ⟨hilen, hgetc⟩
      have hidl : i < (merge_paragraphs
          (split_into_paragraphs note.content)).dropLast.length := by
        rw [List.length_dropLast]; omega
      have heq : (merge_paragraphs
          (split_into_paragraphs note.content)).dropLast[i] = c := by
        rw [List.getElem_dropLast]
        exact (List.get_eq_getElem _ ⟨i, hilen⟩).symm.trans hgetc
      rw [← heq]
      exact List.getElem_mem hidl
    refine ⟨?_, ?_, ?_, ?_, ?_⟩
    · intro ch hch
      obtain ⟨i, c, hget, hidx, htext⟩ := hdecomp ch hch
      rcases hmin c (List.get?_mem hget) with h | h
      · left
        rw [htext]
        split_ifs with h0
        · simp only [List.length_append, List.length_cons]
          omega
        · exact h
      · right
        rw [hlen, h]
        rfl
    · intro ch hch hpos hlt
      obtain ⟨i, c, hget, hidx, htext⟩ := hdecomp ch hch
      rw [hidx] at hpos hlt
      rw [htext, if_neg (by omega : ¬ i = 0)]
      exact hmax.1 c (hdl i c hget (by rw [← hlen]; exact hlt))
    · intro ch hch hpos
      obtain ⟨i, c, hget, hidx, htext⟩ := hdecomp ch hch
      rw [hidx] at hpos
      rw [htext, if_neg (by omega : ¬ i = 0)]
      exact hmax.2 c (List.get?_mem hget)
    · intro ch hch h0 hgt
      obtain ⟨i, c, hget, hidx, htext⟩ := hdecomp ch hch
      have hi0 : i = 0 := by rw [hidx] at h0; exact h0
      subst hi0
      rw [htext, if_pos rfl]
      have hc := hmax.1 c (hdl 0 c hget (by rw [← hlen]; omega))
      simp only [List.length_append, List.length_cons]
      omega
    · intro ch hch
      obtain ⟨i, c, hget, hidx, htext⟩ := hdecomp ch hch
      have hc := hmax.2 c (List.get?_mem hget)
      rw [htext]
      split_ifs
      · simp only [List.length_append, List.length_cons]
        omega
      · omega

end ChunkingService


namespace ChunkingService

open Py

theorem isSpace_a : Py.isSpace 'a' = false := rfl

theorem isSpace_b : Py.isSpace 'b' = false := rfl

theorem isSpace_T : Py.isSpace 'T' = false := rfl

theorem nlWsNl_cons_a (t : List Char) : nlWsNl ('a' :: t) = 0 := rfl

theorem nlWsNl_cons_b (t : List Char) : nlWsNl ('b' :: t) = 0 := rfl

theorem takeWhile_isSpace_replicate_b (k : Nat) :
    (List.replicate k 'b').takeWhile Py.isSpace = [] := by
  cases k with
  | zero => rfl
  | succ k => rw [List.replicate_succ, List.takeWhile_cons, isSpace_b]; rfl

theorem nlWsNl_sep (k : Nat) :
    nlWsNl ('\n' :: '\n' :: List.replicate k 'b') = 2 := by
  have hrun : ('\n' :: List.replicate k 'b').takeWhile Py.isSpace = ['\n'] := by
    rw [List.takeWhile_cons]
    simp only [show Py.isSpace '\n' = true from rfl, if_true,
      takeWhile_isSpace_replicate_b]
  simp only [nlWsNl, hrun]
  rfl

theorem reSplitAux_nil (ml : List Char → Nat) (fuel : Nat) (acc : List Char) :
    reSplitAux ml fuel [] acc = [acc.reverse] := by
  cases fuel <;> rfl

theorem reSplitAux_step (ml : List Char → Nat) (fuel : Nat) (c : Char)
    (t acc : List Char) (h : ml (c :: t) ≠ 0) :
    reSplitAux ml (fuel + 1) (c :: t) acc
      = acc.reverse :: reSplitAux ml fuel ((c :: t).drop (ml (c :: t))) [] := by
  simp [reSplitAux, h]

theorem reSplitAux_skip (ml : List Char → Nat) (c : Char)
    (hml : ∀ t : List Char, ml (c :: t) = 0) (m : Nat) :
    ∀ (fuel : Nat) (rest acc : List Char),
      reSplitAux ml (fuel + m) (List.replicate m c ++ rest) acc
        = reSplitAux ml fuel rest (List.replicate m c ++ acc) := by
  induction m with
  | zero => intro fuel rest acc; simp
  | succ m ih =>
    intro fuel rest acc
    have h1 : fuel + (m + 1) = (fuel + m) + 1 := by omega
    rw [h1, List.replicate_succ, List.cons_append]
    have h2 : reSplitAux ml ((fuel + m) + 1)
        (c :: (List.replicate m c ++ rest)) acc
        = reSplitAux ml (fuel + m) (List.replicate m c ++ rest) (c :: acc) := by
      simp [reSplitAux, hml]
    rw [h2, ih fuel rest (c :: acc)]
    congr 1
    have hx : List.replicate m c ++ c :: acc = List.replicate (m + 1) c ++ acc := by
      rw [List.replicate_succ' m c, List.append_assoc, List.singleton_append]
    rw [hx, List.replicate_succ]

theorem reSplit_two (ml : List Char → Nat)
    (ha : ∀ t : List Char, ml ('a' :: t) = 0)
    (hb : ∀ t : List Char, ml ('b' :: t) = 0)
    (hsep : ∀ k : Nat, ml ('\n' :: '\n' :: List.replicate k 'b') = 2) (m k : Nat) :
    reSplit ml (List.replicate m 'a' ++ '\n' :: '\n' :: List.replicate k 'b')
      = [List.replicate m 'a', List.replicate k 'b'] := by
  unfold reSplit
  have hfuel : pyLen (List.replicate m 'a' ++ '\n' :: '\n' :: List.replicate k 'b') + 1
      = ((k + 3) + m) := by
    rw [pyLen_eq_length]
    simp [List.length_append, List.length_replicate]
    omega
  rw [hfuel, reSplitAux_skip ml 'a' ha m (k + 3) _ []]
  have hstep := reSplitAux_step ml (k + 2) '\n'
    ('\n' :: List.replicate k 'b') (List.replicate m 'a' ++ []) (by rw [hsep k]; omega)
  have h32 : k + 3 = (k + 2) + 1 := by omega
  rw [h32, hstep, hsep k]
  simp only [List.drop_succ_cons, List.drop_zero, List.drop]
  have hbfuel : k + 2 = 2 + k := by omega
  have hbx : List.replicate k 'b' = List.replicate k 'b' ++ ([] : List Char) := by simp
  rw [hbfuel, hbx, reSplitAux_skip ml 'b' hb k 2 _ [], reSplitAux_nil]
  simp

theorem sepMatch_cons_a (t : List Char) : sepMatch ('a' :: t) = 0 := rfl

theorem sepMatch_cons_b (t : List Char) : sepMatch ('b' :: t) = 0 := rfl

theorem sepMatch_sep (k : Nat) :
    sepMatch ('\n' :: '\n' :: List.replicate k 'b') = 2 := by
  simp [sepMatch, nlWsNl_sep]

theorem dropWhile_isSpace_replicate (c : Char) (hc : Py.isSpace c = false) (m : Nat) :
    (List.replicate m c).dropWhile Py.isSpace = List.replicate m c := by
  cases m with
  | zero => rfl
  | succ m => rw [List.replicate_succ, List.dropWhile_cons, hc]; rfl

theorem strip_replicate (c : Char) (hc : Py.isSpace c = false) (m : Nat) :
    strip (List.replicate m c) = List.replicate m c := by
  unfold strip lstrip
  rw [dropWhile_isSpace_replicate c hc, List.reverse_replicate,
    dropWhile_isSpace_replicate c hc, List.reverse_replicate]

theorem split_into_paragraphs_two (m k : Nat) (hm : 0 < m) (hk : 0 < k) :
    split_into_paragraphs
        (List.replicate m 'a' ++ '\n' :: '\n' :: List.replicate k 'b')
      = [List.replicate m 'a', List.replicate k 'b'] := by
  unfold split_into_paragraphs
  rw [reSplit_two sepMatch sepMatch_cons_a sepMatch_cons_b sepMatch_sep]
  simp only [List.map_cons, List.map_nil, strip_replicate 'a' isSpace_a,
    strip_replicate 'b' isSpace_b, List.filter_cons, List.filter_nil]
  have ha : (List.replicate m 'a' ≠ []) := by
    simp [List.replicate_eq_nil_iff]
    omega
  have hb : (List.replicate k 'b' ≠ []) := by
    simp [List.replicate_eq_nil_iff]
    omega
  simp [ha, hb]

end ChunkingService

namespace ChunkingService

theorem dropWhile_isSpace_eq_self (s : List Char)
    (h : ∀ c, s.head? = some c → Py.isSpace c = false) :
    s.dropWhile Py.isSpace = s := by
  cases s with
  | nil => rfl
  | cons c t => rw [List.dropWhile_cons, h c rfl]; rfl

theorem strip_eq_self (s : List Char)
    (hh : ∀ c, s.head? = some c → Py.isSpace c = false)
    (hl : ∀ c, s.getLast? = some c → Py.isSpace c = false) :
    Py.strip s = s := by
  unfold Py.strip Py.lstrip
  rw [dropWhile_isSpace_eq_self s hh]
  rw [dropWhile_isSpace_eq_self s.reverse
    (fun c hc => hl c (by rw [← List.head?_reverse]; exact hc))]
  exact List.reverse_reverse s

theorem getLast_replicate_pos (c : Char) (k : Nat) (hk : 0 < k) :
    (List.replicate k c).getLast? = some c := by
  cases k with
  | zero => omega
  | succ k =>
    rw [List.replicate_succ']
    exact List.getLast?_concat _

theorem full_text_eval (idc : List Char) (m k : Nat) (hk : 0 < k) :
    full_text ⟨idc, ['T'], List.replicate m 'a' ++ '\n' :: '\n' :: List.replicate k 'b'⟩
      = 'T' :: ' ' :: (List.replicate m 'a' ++ '\n' :: '\n' :: List.replicate k 'b') := by
  have hB : List.replicate k 'b' ≠ [] := by
    simp only [ne_eq, List.replicate_eq_nil_iff]
    omega
  have hlast : ('T' :: ' ' ::
        (List.replicate m 'a' ++ '\n' :: '\n' :: List.replicate k 'b')).getLast?
      = some 'b' := by
    have hsplit : 'T' :: ' ' ::
          (List.replicate m 'a' ++ '\n' :: '\n' :: List.replicate k 'b')
        = ('T' :: ' ' :: List.replicate m 'a' ++ ['\n', '\n']) ++ List.replicate k 'b' := by
      simp
    rw [hsplit, List.getLast?_append, getLast_replicate_pos 'b' k hk]
    rfl
  have hshape : full_text ⟨idc, ['T'],
        List.replicate m 'a' ++ '\n' :: '\n' :: List.replicate k 'b'⟩
      = Py.strip ('T' :: ' ' ::
          (List.replicate m 'a' ++ '\n' :: '\n' :: List.replicate k 'b')) := rfl
  rw [hshape]
  apply strip_eq_self
  · intro c hc
    obtain rfl := Option.some.inj hc
    rfl
  · intro c hc
    rw [hlast] at hc
    obtain rfl := Option.some.inj hc
    rfl

theorem merge_paragraphs_pair (A B : List Char)
    (hA : MIN_CHUNK_LENGTH ≤ A.length)
    (hB : MIN_CHUNK_LENGTH ≤ B.length)
    (hcomb : MAX_CHUNK_LENGTH < A.length + B.length + 2)
    (hBs : Py.strip B ≠ []) :
    merge_paragraphs [A, B] = [A, B] := by
  have h1 : ¬ Py.pyLen (A ++ '\n' :: '\n' :: B) ≤ MAX_CHUNK_LENGTH := by
    rw [Py.pyLen_eq_length]
    simp only [List.length_append, List.length_cons]
    omega
  have h2 : MIN_CHUNK_LENGTH ≤ Py.pyLen A := by
    rw [Py.pyLen_eq_length]; exact hA
  have hstep : mergeStep ([], A) B = ([A], B) := by
    simp only [mergeStep]
    rw [if_neg h1, if_pos h2]
    rfl
  have h3 : ¬ (([A] : List (List Char)) ≠ [] ∧ Py.pyLen B < MIN_CHUNK_LENGTH) := by
    rw [Py.pyLen_eq_length]
    exact fun h => absurd h.2 (not_lt.mpr hB)
  simp only [merge_paragraphs, List.foldl_cons, List.foldl_nil, hstep]
  rw [if_pos hBs, if_neg h3]
  rfl

theorem build_chunks_note_eval (m k : Nat)
    (h1 : MIN_CHUNK_LENGTH ≤ m) (h2 : MIN_CHUNK_LENGTH ≤ k)
    (h3 : MAX_CHUNK_LENGTH < m + k + 2) (h4 : SHORT_NOTE_THRESHOLD < m + k + 4) :
    build_chunks_note ⟨['n'], ['T'],
        List.replicate m 'a' ++ '\n' :: '\n' :: List.replicate k 'b'⟩
      = [⟨['n'], 0, 'T' :: ' ' :: List.replicate m 'a', ['T']⟩,
         ⟨['n'], 1, List.replicate k 'b', ['T']⟩] := by
  have hm : 0 < m := by simp only [MIN_CHUNK_LENGTH] at h1; omega
  have hk : 0 < k := by simp only [MIN_CHUNK_LENGTH] at h2; omega
  have hft := full_text_eval ['n'] m k hk
  have hlen : ('T' :: ' ' ::
        (List.replicate m 'a' ++ '\n' :: '\n' :: List.replicate k 'b')).length
      = m + k + 4 := by
    simp only [List.length_cons, List.length_append, List.length_replicate]
    omega
  have hshort : ¬ Py.pyLen ('T' :: ' ' ::
        (List.replicate m 'a' ++ '\n' :: '\n' :: List.replicate k 'b'))
      ≤ SHORT_NOTE_THRESHOLD := by
    rw [Py.pyLen_eq_length, hlen]
    omega
  simp only [build_chunks_note, hft]
  rw [if_neg (by simp : ¬ (['n'] : List Char) = []),
    if_neg (by simp : ¬ ('T' :: ' ' ::
      (List.replicate m 'a' ++ '\n' :: '\n' :: List.replicate k 'b')) = ([] : List Char)),
    if_neg hshort]
  rw [split_into_paragraphs_two m k hm hk]
  rw [merge_paragraphs_pair (List.replicate m 'a') (List.replicate k 'b')
    (by rw [List.length_replicate]; exact h1)
    (by rw [List.length_replicate]; exact h2)
    (by rw [List.length_replicate, List.length_replicate]; exact h3)
    (by rw [strip_replicate 'b' isSpace_b]
        simp only [ne_eq, List.replicate_eq_nil_iff]
        omega)]
  rfl

end ChunkingService

namespace ChunkingService

/-- C6 counterexample: a note far above the short-note threshold whose second
paragraph is a single 1600-character block; the structure-aware chunker emits
it unchanged as a non-first chunk of 1600 > `MAX_CHUNK_LENGTH` characters,
refuting the claim that only the first chunk may exceed the maximum. -/
theorem claim_C6_counterexample :
    SHORT_NOTE_THRESHOLD < (full_text c6noteBig).length
    ∧ ∃ ch ∈ build_chunks_note c6noteBig,
        ch.chunk_index ≠ 0 ∧ MAX_CHUNK_LENGTH < ch.text.length := by
  have heval : build_chunks_note c6noteBig
      = [⟨['n'], 0, 'T' :: ' ' :: List.replicate 200 'a', ['T']⟩,
         ⟨['n'], 1, List.replicate 1600 'b', ['T']⟩] := by
    simp only [c6noteBig]
    exact build_chunks_note_eval 200 1600 (by decide) (by decide) (by decide) (by decide)
  constructor
  · have hft : full_text c6noteBig
        = 'T' :: ' ' ::
            (List.replicate 200 'a' ++ '\n' :: '\n' :: List.replicate 1600 'b') := by
      simp only [c6noteBig]
      exact full_text_eval ['n'] 200 1600 (by decide)
    rw [hft]
    simp only [List.length_cons, List.length_append, List.length_replicate,
      SHORT_NOTE_THRESHOLD]
    omega
  · refine ⟨⟨['n'], 1, List.replicate 1600 'b', ['T']⟩, ?_, ?_, ?_⟩
    · rw [heval]
      exact List.mem_cons_of_mem _ (List.mem_cons_self _ _)
    · decide
    · show MAX_CHUNK_LENGTH < (List.replicate 1600 'b').length
      rw [List.length_replicate]
      decide

/-- Concrete instantiation of the amended C6 invariant at a two-paragraph
note of 300 + 300 characters. -/
theorem claim_C6_witness :
    (∀ ch ∈ build_chunks_note c6noteOk,
        MIN_CHUNK_LENGTH ≤ ch.text.length ∨ (build_chunks_note c6noteOk).length = 1)
    ∧ (∀ ch ∈ build_chunks_note c6noteOk, 0 < ch.chunk_index →
        ch.chunk_index + 1 < (build_chunks_note c6noteOk).length →
        ch.text.length ≤ MAX_CHUNK_LENGTH)
    ∧ (∀ ch ∈ build_chunks_note c6noteOk, 0 < ch.chunk_index →
        ch.text.length ≤ MAX_CHUNK_LENGTH + MIN_CHUNK_LENGTH + 1)
    ∧ (∀ ch ∈ build_chunks_note c6noteOk, ch.chunk_index = 0 →
        1 < (build_chunks_note c6noteOk).length →
        ch.text.length ≤ MAX_CHUNK_LENGTH + c6noteOk.title.length + 1)
    ∧ (∀ ch ∈ build_chunks_note c6noteOk,
        ch.text.length
          ≤ MAX_CHUNK_LENGTH + MIN_CHUNK_LENGTH + 1 + c6noteOk.title.length + 1) := by
  refine claim_C6_chunk_size_invariant c6noteOk ?_ ?_
  · have hft : full_text c6noteOk
        = 'T' :: ' ' ::
            (List.replicate 300 'a' ++ '\n' :: '\n' :: List.replicate 300 'b') := by
      simp only [c6noteOk]
      exact full_text_eval ['n'] 300 300 (by decide)
    rw [hft]
    simp only [List.length_cons, List.length_append, List.length_replicate,
      SHORT_NOTE_THRESHOLD]
    omega
  · intro p hp
    simp only [c6noteOk] at hp
    rw [split_into_paragraphs_two 300 300 (by omega) (by omega)] at hp
    simp only [List.mem_cons, List.not_mem_nil, or_false] at hp
    rcases hp with rfl | rfl
    · rw [List.length_replicate]
      decide
    · rw [List.length_replicate]
      decide

end ChunkingService

namespace DoclingChunking

open ChunkingService

theorem slice_zero_of_prefix (p s : List Char) (hp : p.isPrefixOf s) :
    Py.slice s 0 (0 + p.length) = p := by
  have h := List.isPrefixOf_iff_prefix.mp hp
  unfold Py.slice
  simp only [List.drop_zero, Nat.zero_add, Nat.sub_zero]
  exact (List.prefix_iff_eq_take.mp h).symm

theorem find_slice (p : List Char) : ∀ (s : List Char) (i : Nat),
    Py.find s p = some i → Py.slice s i (i + p.length) = p := by
  intro s
  induction s with
  | nil =>
    intro i h
    unfold Py.find at h
    by_cases hp : p.isPrefixOf ([] : List Char)
    · rw [if_pos hp] at h
      obtain rfl := Option.some.inj h
      exact slice_zero_of_prefix p [] hp
    · rw [if_neg hp] at h
      exact absurd h (by simp)
  | cons c t ih =>
    intro i h
    unfold Py.find at h
    by_cases hp : p.isPrefixOf (c :: t)
    · rw [if_pos hp] at h
      obtain rfl := Option.some.inj h
      exact slice_zero_of_prefix p (c :: t) hp
    · rw [if_neg hp] at h
      rcases Option.map_eq_some'.mp h with ⟨j, hj, hji⟩
      subst hji
      have hrec := ih j hj
      unfold Py.slice at hrec ⊢
      rw [List.drop_succ_cons]
      have e1 : j + 1 + p.length - (j + 1) = p.length := by omega
      have e2 : j + p.length - j = p.length := by omega
      rw [e1]
      rw [e2] at hrec
      exact hrec

/-- C2 counterexample: a note with title `"Hi"` and empty content takes the
short-note path of `_chunk_note`, which emits a chunk with
`start_char_idx = 0`, `end_char_idx = len(content) = 0`; the slice
`content[0:0]` is empty while the chunk text is not, refuting the claimed
non-emptiness of the offset slice. -/
theorem claim_C2_counterexample :
    chunk_note none ⟨['n'], ['H', 'i'], []⟩
        = [fallback_chunk ⟨['n'], ['H', 'i'], []⟩]
    ∧ (fallback_chunk (⟨['n'], ['H', 'i'], []⟩ : KNote)).text ≠ []
    ∧ Py.slice (⟨['n'], ['H', 'i'], []⟩ : KNote).content
        (fallback_chunk (⟨['n'], ['H', 'i'], []⟩ : KNote)).start_char_idx
        (fallback_chunk (⟨['n'], ['H', 'i'], []⟩ : KNote)).end_char_idx = [] := by
  refine ⟨?_, ?_, ?_⟩ <;> decide

/-- C2 (amended): when the stripped chunk text occurs in the note content,
the exact-match branch of `_resolve_chunk_offsets` returns offsets whose
slice of the content reproduces the stripped chunk text exactly (and is
non-empty when that text is); and the fallback chunk's offsets slice back to
the whole content, which is non-empty whenever the content is. The original
claim fails on empty content (see the counterexample). -/
theorem claim_C2_offset_round_trip (note : KNote) (chunkTextRaw : List Char)
    (docItems : List (List Char)) (omap : List (List Char × Nat × Nat)) (i : Nat)
    (hfind : Py.find note.content (Py.strip chunkTextRaw) = some i)
    (hne : Py.strip chunkTextRaw ≠ [])
    (hcontent : note.content ≠ []) :
    (resolve_chunk_offsets chunkTextRaw docItems note.content omap
        = (i, i + (Py.strip chunkTextRaw).length)
      ∧ Py.slice note.content i (i + (Py.strip chunkTextRaw).length)
          = Py.strip chunkTextRaw
      ∧ Py.slice note.content i (i + (Py.strip chunkTextRaw).length) ≠ [])
    ∧ (Py.slice note.content (fallback_chunk note).start_char_idx
          (fallback_chunk note).end_char_idx = note.content
      ∧ Py.slice note.content (fallback_chunk note).start_char_idx
          (fallback_chunk note).end_char_idx ≠ []) := by
  have hs : Py.slice note.content 0 note.content.length = note.content := by
    unfold Py.slice
    rw [List.drop_zero, Nat.sub_zero, List.take_length]
  constructor
  · refine ⟨?_, ?_, ?_⟩
    · simp only [resolve_chunk_offsets, hfind]
    · exact find_slice _ _ _ hfind
    · rw [find_slice _ _ _ hfind]
      exact hne
  · refine ⟨?_, ?_⟩
    · show Py.slice note.content 0 note.content.length = note.content
      exact hs
    · show Py.slice note.content 0 note.content.length ≠ []
      rw [hs]
      exact hcontent

/-- Concrete instantiation of the amended C2 round trip: chunk text `"y"`
inside content `"xyz"` resolves to offsets `(1, 2)` and slices back to
`"y"`; the fallback chunk of the same note slices back to `"xyz"`. -/
theorem claim_C2_witness :
    (resolve_chunk_offsets ['y'] [] ['x', 'y', 'z'] []
        = (1, 1 + (Py.strip ['y']).length)
      ∧ Py.slice ['x', 'y', 'z'] 1 (1 + (Py.strip ['y']).length) = Py.strip ['y']
      ∧ Py.slice ['x', 'y', 'z'] 1 (1 + (Py.strip ['y']).length) ≠ [])
    ∧ (Py.slice ['x', 'y', 'z']
          (fallback_chunk ⟨['n'], ['T'], ['x', 'y', 'z']⟩).start_char_idx
          (fallback_chunk ⟨['n'], ['T'], ['x', 'y', 'z']⟩).end_char_idx
        = ['x', 'y', 'z']
      ∧ Py.slice ['x', 'y', 'z']
          (fallback_chunk ⟨['n'], ['T'], ['x', 'y', 'z']⟩).start_char_idx
          (fallback_chunk ⟨['n'], ['T'], ['x', 'y', 'z']⟩).end_char_idx ≠ []) :=
  claim_C2_offset_round_trip ⟨['n'], ['T'], ['x', 'y', 'z']⟩ ['y'] [] [] 1
    (by decide) (by decide) (by decide)

end DoclingChunking
